import Mathlib

/-!
Verification development for the indicator computation engine in
`src/core/transform.py` (crypto-pipeline).  The engine is a straight pipeline
of polars column transforms; this file gives a shallow embedding of the
DataFrame values and of every polars primitive the engine uses, and proves the
specification claims against it.

Modelling conventions, fixed once for the whole file:
* A `Float64` cell is modelled by `F`: an exact rational, `+inf`, `-inf`, or
  `NaN`, with IEEE-754 arithmetic on the non-finite values (polars float
  arithmetic follows IEEE-754: `x/0.0` is a signed infinity for `x ≠ 0` and
  `0.0/0.0` is `NaN`).  Finite arithmetic is exact rational arithmetic; the
  spec states its numeric properties up to tolerance `1e-9`, which exact
  equality implies.  The sign of zero is not modelled (no claim observes it).
* A polars null is `Option.none`; a column is a `List (Option F)`.
* `rolling_mean`/`rolling_std` use the polars default
  `min_periods = window_size`: a window that holds fewer than `window_size`
  non-null values yields null.
* `ewm_mean(span=p)` uses the polars defaults `adjust=True, min_periods=1`
  with `alpha = 2/(p+1)`: the output is the decaying weighted mean
  `(Σ (1-α)^(t-i)·x[i]) / (Σ (1-α)^(t-i))`, computed by the usual
  numerator/denominator recurrence.
* `when(c).then(a).otherwise(b)` yields null where the predicate `c` is null
  (polars ternary semantics; a null mask entry produces a null output).
* `max_horizontal` ignores nulls and yields null only when all operands are
  null; `NaN` compares greatest (polars float total order).
* `with_columns` replaces an existing column with the same name in place and
  appends new names; several expressions in one `with_columns` call must have
  pairwise distinct output names, otherwise polars raises a duplicate-column
  error.
* A missing input column makes the expression that references it raise a
  column-not-found error when the `with_columns` call evaluating it runs;
  there is no upfront schema validation in the source.
* polars validates window/span parameters: `rolling_mean` requires a positive
  integer `window_size` and `ewm_mean` requires `span >= 1`; the model checks
  the parameter of an operation before evaluating its expressions.
  Non-integer periods cannot be written in the typed embedding (Python would
  reject them with a TypeError inside polars); periods are embedded as `Int`
  so that non-positive values are representable.
* The float square root used by `rolling_std` has no exact rational
  counterpart; it is passed as an abstract parameter `sq : ℚ → ℚ`.  No claim
  depends on a standard-deviation value, so every theorem holds for all `sq`.
* Python exceptions are modelled by `Except String`: a raised error yields
  `Except.error` and the caller receives no partially augmented frame.
-/

namespace CryptoPipeline

/-- Model of a polars `Float64` scalar: an exact rational, an infinity, or
`NaN`.  The sign of zero is not modelled. -/
inductive F where
  | fin : ℚ → F
  | pinf : F
  | ninf : F
  | nan : F
deriving DecidableEq, Repr

/-- IEEE negation. -/
def F.neg : F → F
  | .fin q => .fin (-q)
  | .pinf => .ninf
  | .ninf => .pinf
  | .nan => .nan

/-- IEEE addition: `NaN` propagates, opposite infinities give `NaN`. -/
def F.add : F → F → F
  | .nan, _ => .nan
  | _, .nan => .nan
  | .pinf, .ninf => .nan
  | .ninf, .pinf => .nan
  | .pinf, _ => .pinf
  | _, .pinf => .pinf
  | .ninf, _ => .ninf
  | _, .ninf => .ninf
  | .fin a, .fin b => .fin (a + b)

/-- IEEE subtraction, `a + (-b)`. -/
def F.sub (a b : F) : F := F.add a (F.neg b)

/-- IEEE multiplication: `NaN` propagates, `inf * 0` gives `NaN`. -/
def F.mul : F → F → F
  | .nan, _ => .nan
  | _, .nan => .nan
  | .fin a, .fin b => .fin (a * b)
  | .pinf, .pinf => .pinf
  | .pinf, .ninf => .ninf
  | .ninf, .pinf => .ninf
  | .ninf, .ninf => .pinf
  | .pinf, .fin b => if b < 0 then .ninf else if b = 0 then .nan else .pinf
  | .fin a, .pinf => if a < 0 then .ninf else if a = 0 then .nan else .pinf
  | .ninf, .fin b => if b < 0 then .pinf else if b = 0 then .nan else .ninf
  | .fin a, .ninf => if a < 0 then .pinf else if a = 0 then .nan else .ninf

/-- IEEE division: `x/0` is a signed infinity for finite `x ≠ 0`, `0/0` and
`inf/inf` are `NaN`, `x/inf` is zero for finite `x`. -/
def F.div : F → F → F
  | .nan, _ => .nan
  | _, .nan => .nan
  | .pinf, .pinf => .nan
  | .pinf, .ninf => .nan
  | .ninf, .pinf => .nan
  | .ninf, .ninf => .nan
  | .pinf, .fin b => if b < 0 then .ninf else .pinf
  | .ninf, .fin b => if b < 0 then .pinf else .ninf
  | .fin _, .pinf => .fin 0
  | .fin _, .ninf => .fin 0
  | .fin a, .fin b =>
    if b = 0 then (if a = 0 then .nan else if 0 < a then .pinf else .ninf)
    else .fin (a / b)

/-- IEEE comparison `0 < x`; false on `NaN`. -/
def F.gtZero : F → Bool
  | .fin q => decide (0 < q)
  | .pinf => true
  | .ninf => false
  | .nan => false

/-- IEEE comparison `x < 0`; false on `NaN`. -/
def F.ltZero : F → Bool
  | .fin q => decide (q < 0)
  | .pinf => false
  | .ninf => true
  | .nan => false

/-- IEEE absolute value. -/
def F.abs : F → F
  | .fin q => .fin |q|
  | .pinf => .pinf
  | .ninf => .pinf
  | .nan => .nan

/-- The polars float total order restricted to a boolean test, with `NaN`
greatest; used by `max_horizontal`. -/
def F.leT : F → F → Bool
  | _, .nan => true
  | .nan, _ => false
  | .ninf, _ => true
  | _, .ninf => false
  | .pinf, .pinf => true
  | .fin _, .pinf => true
  | .pinf, .fin _ => false
  | .fin a, .fin b => decide (a ≤ b)

/-- Binary maximum in the polars float total order. -/
def F.maxT (a b : F) : F := if F.leT a b then b else a

/-- A column cell: `none` is a polars null. -/
abbrev Cell := Option F

/-- A polars column. -/
abbrev Column := List Cell

/-- A column of finite, non-null values. -/
def finCol (l : List ℚ) : Column := l.map (fun q => some (F.fin q))

/-- Null-propagating lift of a scalar operation to cells (polars arithmetic
between columns: any null operand yields null). -/
def cellMap2 (f : F → F → F) : Cell → Cell → Cell
  | some a, some b => some (f a b)
  | _, _ => none

/-- Elementwise binary operation between two columns. -/
def colMap2 (f : F → F → F) (a b : Column) : Column := List.zipWith (cellMap2 f) a b

/-- Model of polars `shift(1)`: a leading null, the last value dropped; the
empty column is unchanged. -/
def shiftOne : Column → Column
  | [] => []
  | x :: xs => none :: (x :: xs).dropLast

/-- Model of polars `diff()`: elementwise `c - c.shift(1)`. -/
def colDiff (c : Column) : Column := colMap2 F.sub c (shiftOne c)

/-- Model of `pl.when(d > 0).then(d).otherwise(0)` applied to one cell: a null
predicate yields null, otherwise the gain or the literal zero. -/
def gainCell : Cell → Cell
  | none => none
  | some v => if v.gtZero then some v else some (F.fin 0)

/-- Model of `pl.when(d < 0).then(-d).otherwise(0)` applied to one cell. -/
def lossCell : Cell → Cell
  | none => none
  | some v => if v.ltZero then some (F.neg v) else some (F.fin 0)

/-- The trailing window of width `w` ending at index `i`. -/
def windowAt (w : ℕ) (c : Column) (i : ℕ) : Column := (c.take (i + 1)).drop (i + 1 - w)

/-- Sum of a list of scalars with IEEE addition. -/
def cellsSum (l : List F) : F := l.foldr F.add (F.fin 0)

/-- One output cell of polars `rolling_mean(window_size=w)` with the default
`min_periods = w`: null unless the window holds `w` non-null values. -/
def rollingMeanCell (w : ℕ) (c : Column) (i : ℕ) : Cell :=
  let vals := (windowAt w c i).filterMap id
  if vals.length < w then none
  else some (F.div (cellsSum vals) (F.fin w))

/-- Model of polars `rolling_mean(window_size=w)`. -/
def rollingMean (w : ℕ) (c : Column) : Column :=
  (List.range c.length).map (rollingMeanCell w c)

/-- Square root on scalars, from an abstract rational square root `sq`
standing in for the float `sqrt` (negative inputs give `NaN`). -/
def F.sqrtv (sq : ℚ → ℚ) : F → F
  | .fin q => if q < 0 then .nan else .fin (sq q)
  | .pinf => .pinf
  | .ninf => .nan
  | .nan => .nan

/-- One output cell of polars `rolling_std(window_size=w)` (sample standard
deviation, `ddof = 1`, default `min_periods = w`). -/
def rollingStdCell (sq : ℚ → ℚ) (w : ℕ) (c : Column) (i : ℕ) : Cell :=
  let vals := (windowAt w c i).filterMap id
  if vals.length < w then none
  else
    let m := F.div (cellsSum vals) (F.fin w)
    let sse := cellsSum (vals.map (fun x => F.mul (F.sub x m) (F.sub x m)))
    some (F.sqrtv sq (F.div sse (F.fin ((w - 1 : ℕ) : ℚ))))

/-- Model of polars `rolling_std(window_size=w)`. -/
def rollingStd (sq : ℚ → ℚ) (w : ℕ) (c : Column) : Column :=
  (List.range c.length).map (rollingStdCell sq w c)

/-- Accumulator loop of polars `ewm_mean` with `adjust=True`: `r = 1 - alpha`,
`num` and `den` carry the decaying weighted numerator and weight sum.  Null
inputs yield null and leave the state unchanged. -/
def ewmGo (r : ℚ) : Column → F → F → Column
  | [], _, _ => []
  | none :: rest, num, den => none :: ewmGo r rest num den
  | some x :: rest, num, den =>
    let num' := F.add x (F.mul (F.fin r) num)
    let den' := F.add (F.fin 1) (F.mul (F.fin r) den)
    some (F.div num' den') :: ewmGo r rest num' den'

/-- Model of polars `ewm_mean(span=p)` (defaults `adjust=True`,
`min_periods=1`), with `alpha = 2/(p+1)`. -/
def ewmMean (span : ℕ) (c : Column) : Column :=
  ewmGo (1 - 2 / ((span : ℚ) + 1)) c (F.fin 0) (F.fin 0)

/-- Pairwise cell maximum ignoring nulls, as `max_horizontal` does. -/
def maxCell2 : Cell → Cell → Cell
  | none, b => b
  | some a, none => some a
  | some a, some b => some (F.maxT a b)

/-- Model of polars `max_horizontal` over three columns: nulls are ignored,
the result is null only where all three cells are null. -/
def maxHorizontal3 (a b c : Column) : Column :=
  List.zipWith maxCell2 (List.zipWith maxCell2 a b) c

/-- Accumulator loop of polars `cum_sum`: nulls stay null and do not change
the running sum. -/
def cumSumGo : Column → F → Column
  | [], _ => []
  | none :: rest, acc => none :: cumSumGo rest acc
  | some x :: rest, acc =>
    let acc' := F.add acc x
    some acc' :: cumSumGo rest acc'

/-- Model of polars `cum_sum()`. -/
def cumSum (c : Column) : Column := cumSumGo c (F.fin 0)

/-- A DataFrame: named columns in order.  Real polars frames have pairwise
distinct column names and equal column lengths (`Frame.wf`). -/
abbrev Frame := List (String × Column)

/-- Look a column up by name, as `pl.col(name)` resolution does. -/
def Frame.getCol? : Frame → String → Option Column
  | [], _ => none
  | p :: rest, n => if p.1 = n then some p.2 else Frame.getCol? rest n

/-- Model of adding one named expression result with `with_columns`: an
existing column of that name is replaced in place, a new name is appended. -/
def Frame.withColumn : Frame → String → Column → Frame
  | [], n, c => [(n, c)]
  | p :: rest, n, c => if p.1 = n then (n, c) :: rest else p :: Frame.withColumn rest n c

/-- Model of one `with_columns([...])` call with several expressions: polars
raises a duplicate-column error when two output names coincide, otherwise all
columns are added. -/
def Frame.withColumns (df : Frame) (cs : List (String × Column)) : Except String Frame :=
  if (cs.map Prod.fst).Nodup then .ok (cs.foldl (fun d p => d.withColumn p.1 p.2) df)
  else .error "duplicate column name"

/-- Number of rows of a frame (the height of a polars DataFrame; every column
of a real frame has this length). -/
def Frame.height : Frame → ℕ
  | [] => 0
  | p :: _ => p.2.length

/-- The DataFrame invariant: distinct column names, all columns of equal
length. -/
def Frame.wf (df : Frame) : Prop :=
  (df.map Prod.fst).Nodup ∧ ∀ p ∈ df, p.2.length = df.height

/-- Column name `sma_{period}` emitted by `add_sma`. -/
def smaName (p : Int) : String := "sma_" ++ toString p

/-- Column name `ema_{period}` emitted by `add_ema` and inside `add_macd`. -/
def emaName (p : Int) : String := "ema_" ++ toString p

/-- Column name `rsi_{period}` emitted by `add_rsi`. -/
def rsiName (p : Int) : String := "rsi_" ++ toString p

/-- Column name `macd_{short}_{long}` emitted by `add_macd`. -/
def macdColName (s l : Int) : String := "macd_" ++ toString s ++ "_" ++ toString l

/-- Column name `macd_signal_{signal}` emitted by `add_macd`. -/
def macdSignalName (g : Int) : String := "macd_signal_" ++ toString g

/-- Column name `bb_middle_{period}` emitted by `add_bollinger_bands`. -/
def bbMiddleName (p : Int) : String := "bb_middle_" ++ toString p

/-- Column name `bb_upper_{period}` emitted by `add_bollinger_bands`. -/
def bbUpperName (p : Int) : String := "bb_upper_" ++ toString p

/-- Column name `bb_lower_{period}` emitted by `add_bollinger_bands`. -/
def bbLowerName (p : Int) : String := "bb_lower_" ++ toString p

/-- Column name `bb_std_{period}` emitted by `add_bollinger_bands`. -/
def bbStdName (p : Int) : String := "bb_std_" ++ toString p

/-- Column name `atr_{period}` emitted by `add_atr`. -/
def atrName (p : Int) : String := "atr_" ++ toString p

/-- Embedding of `add_sma`: appends `close.rolling_mean(window_size=period)`
as `sma_{period}`. -/
def addSma (df : Frame) (period : Int) : Except String Frame :=
  if period < 1 then .error "window_size must be a positive integer"
  else
    match df.getCol? "close" with
    | none => .error "column not found: close"
    | some close => .ok (df.withColumn (smaName period) (rollingMean period.toNat close))

/-- Embedding of `add_ema`: appends `close.ewm_mean(span=period)` as
`ema_{period}`. -/
def addEma (df : Frame) (period : Int) : Except String Frame :=
  if period < 1 then .error "require span >= 1"
  else
    match df.getCol? "close" with
    | none => .error "column not found: close"
    | some close => .ok (df.withColumn (emaName period) (ewmMean period.toNat close))

/-- The rolling average gain of `add_rsi`:
`rolling_mean(when(diff > 0).then(diff).otherwise(0), period)`. -/
def avgGainCol (period : ℕ) (close : Column) : Column :=
  rollingMean period ((colDiff close).map gainCell)

/-- The rolling average loss of `add_rsi`:
`rolling_mean(when(diff < 0).then(-diff).otherwise(0), period)`. -/
def avgLossCol (period : ℕ) (close : Column) : Column :=
  rollingMean period ((colDiff close).map lossCell)

/-- The final RSI formula `100 - 100/(1 + rs)` applied to one relative
strength cell. -/
def rsiCell : Cell → Cell
  | none => none
  | some rs => some (F.sub (F.fin 100) (F.div (F.fin 100) (F.add (F.fin 1) rs)))

/-- The `rsi_{period}` column computed by `add_rsi` from a close column. -/
def rsiColumn (period : ℕ) (close : Column) : Column :=
  (colMap2 F.div (avgGainCol period close) (avgLossCol period close)).map rsiCell

/-- Embedding of `add_rsi`. -/
def addRsi (df : Frame) (period : Int) : Except String Frame :=
  if period < 1 then .error "window_size must be a positive integer"
  else
    match df.getCol? "close" with
    | none => .error "column not found: close"
    | some close => .ok (df.withColumn (rsiName period) (rsiColumn period.toNat close))

/-- Embedding of `add_macd`: one `with_columns` call adding both EMAs, then
the macd difference, the signal EMA over the macd column, and the histogram,
each reading the previously written columns back with `pl.col`. -/
def addMacd (df : Frame) (shortPeriod longPeriod signalPeriod : Int) : Except String Frame :=
  if shortPeriod < 1 then .error "require span >= 1"
  else if longPeriod < 1 then .error "require span >= 1"
  else
    match df.getCol? "close" with
    | none => .error "column not found: close"
    | some close => do
      let df1 ← df.withColumns
        [(emaName shortPeriod, ewmMean shortPeriod.toNat close),
         (emaName longPeriod, ewmMean longPeriod.toNat close)]
      match df1.getCol? (emaName shortPeriod), df1.getCol? (emaName longPeriod) with
      | some cS, some cL =>
        let df2 := df1.withColumn (macdColName shortPeriod longPeriod) (colMap2 F.sub cS cL)
        if signalPeriod < 1 then .error "require span >= 1"
        else
          match df2.getCol? (macdColName shortPeriod longPeriod) with
          | some cM =>
            let df3 := df2.withColumn (macdSignalName signalPeriod)
              (ewmMean signalPeriod.toNat cM)
            match df3.getCol? (macdColName shortPeriod longPeriod),
                df3.getCol? (macdSignalName signalPeriod) with
            | some cM2, some cSig =>
              .ok (df3.withColumn "macd_histogram" (colMap2 F.sub cM2 cSig))
            | _, _ => .error "column not found"
          | none => .error "column not found"
      | _, _ => .error "column not found"

/-- Scale a cell by a finite constant (broadcast `* std_dev`). -/
def cellScale (k : ℚ) : Cell → Cell := Option.map (fun x => F.mul x (F.fin k))

/-- Embedding of `add_bollinger_bands`: middle, upper, lower, std columns in
one `with_columns` call. -/
def addBollingerBands (sq : ℚ → ℚ) (df : Frame) (period : Int) (stdDev : ℚ) :
    Except String Frame :=
  if period < 1 then .error "window_size must be a positive integer"
  else
    match df.getCol? "close" with
    | none => .error "column not found: close"
    | some close =>
      let m := rollingMean period.toNat close
      let s := rollingStd sq period.toNat close
      df.withColumns
        [(bbMiddleName period, m),
         (bbUpperName period, colMap2 F.add m (s.map (cellScale stdDev))),
         (bbLowerName period, colMap2 F.sub m (s.map (cellScale stdDev))),
         (bbStdName period, s)]

/-- The true-range column of `add_atr`:
`max_horizontal(high - low, |high - close.shift(1)|, |low - close.shift(1)|)`. -/
def trueRange (high low close : Column) : Column :=
  maxHorizontal3 (colMap2 F.sub high low)
    ((colMap2 F.sub high (shiftOne close)).map (Option.map F.abs))
    ((colMap2 F.sub low (shiftOne close)).map (Option.map F.abs))

/-- Embedding of `add_atr`: the rolling mean of the true range as
`atr_{period}`. -/
def addAtr (df : Frame) (period : Int) : Except String Frame :=
  if period < 1 then .error "window_size must be a positive integer"
  else
    match df.getCol? "high", df.getCol? "low", df.getCol? "close" with
    | some high, some low, some close =>
      .ok (df.withColumn (atrName period) (rollingMean period.toNat (trueRange high low close)))
    | none, _, _ => .error "column not found: high"
    | _, none, _ => .error "column not found: low"
    | _, _, none => .error "column not found: close"

/-- The typical price `(high + low + close) / 3`. -/
def typicalPrice (high low close : Column) : Column :=
  (colMap2 F.add (colMap2 F.add high low) close).map
    (Option.map (fun x => F.div x (F.fin 3)))

/-- The `vwap` column: `cum_sum(typical_price * volume) / cum_sum(volume)`. -/
def vwapColumn (high low close volume : Column) : Column :=
  colMap2 F.div (cumSum (colMap2 F.mul (typicalPrice high low close) volume)) (cumSum volume)

/-- Embedding of `add_vwap`. -/
def addVwap (df : Frame) : Except String Frame :=
  match df.getCol? "high", df.getCol? "low", df.getCol? "close", df.getCol? "volume" with
  | some h, some l, some c, some v => .ok (df.withColumn "vwap" (vwapColumn h l c v))
  | none, _, _, _ => .error "column not found: high"
  | _, none, _, _ => .error "column not found: low"
  | _, _, none, _ => .error "column not found: close"
  | _, _, _, none => .error "column not found: volume"

/-- Embedding of `add_all_indicators`: SMAs, EMAs, RSI, MACD, Bollinger, ATR,
VWAP in the fixed source order, on a working copy, short-circuiting on the
first raised error.  The source's default parameter values are
`[20, 50], [12, 26], 14, 12, 26, 9, 20, 2.0, 14`; the embedding takes them
explicitly. -/
def addAllIndicators (sq : ℚ → ℚ) (df : Frame) (smaPeriods emaPeriods : List Int)
    (rsiPeriod macdShort macdLong macdSignal bbPeriod : Int) (bbStd : ℚ)
    (atrPeriod : Int) : Except String Frame := do
  let df1 ← smaPeriods.foldlM (fun d p => addSma d p) df
  let df2 ← emaPeriods.foldlM (fun d p => addEma d p) df1
  let df3 ← addRsi df2 rsiPeriod
  let df4 ← addMacd df3 macdShort macdLong macdSignal
  let df5 ← addBollingerBands sq df4 bbPeriod bbStd
  let df6 ← addAtr df5 atrPeriod
  addVwap df6

/-- Decimal parser used to show that the decimal renderings in column names
are injective. -/
def parseDigits (l : List Char) : ℕ := l.foldl (fun a c => 10 * a + (c.toNat - 48)) 0

/-- Concrete two-bar close frame (close prices 0, 1). -/
def twoBarClose : Frame := [("close", finCol [0, 1])]

/-- Concrete constant close frame (close prices 5, 5, 5). -/
def flatClose : Frame := [("close", finCol [5, 5, 5])]

/-- Concrete rising close frame (close prices 1, 2, 3). -/
def riseClose : Frame := [("close", finCol [1, 2, 3])]

/-- Concrete one-bar frame with high 3, low 1, close 2. -/
def oneBarHLC : Frame := [("high", finCol [3]), ("low", finCol [1]), ("close", finCol [2])]

/-- Concrete one-bar frame missing the required `date` column. -/
def noDateFrame : Frame :=
  [("open", finCol [1]), ("high", finCol [2]), ("low", finCol [0]),
   ("close", finCol [1]), ("volume", finCol [7])]

/-- Concrete one-bar frame missing the required `volume` column. -/
def noVolumeFrame : Frame :=
  [("date", finCol [0]), ("open", finCol [1]), ("high", finCol [2]),
   ("low", finCol [0]), ("close", finCol [1])]

/-- Concrete frame that already carries a column named `sma_1`. -/
def collideFrame : Frame := [("close", finCol [1, 2]), ("sma_1", finCol [99, 99])]

/-- Concrete full OHLCV one-bar frame. -/
def ohlcvFrame1 : Frame :=
  [("date", finCol [0]), ("open", finCol [1]), ("high", finCol [2]),
   ("low", finCol [0]), ("close", finCol [1]), ("volume", finCol [7])]

/-- The `macd_{short}_{long}` column computed by `add_macd`. -/
def macdColumn (s l : Int) (close : Column) : Column :=
  colMap2 F.sub (ewmMean s.toNat close) (ewmMean l.toNat close)

/-- The `macd_signal_{signal}` column computed by `add_macd`. -/
def macdSignalColumn (g s l : Int) (close : Column) : Column :=
  ewmMean g.toNat (macdColumn s l close)

/-- The frame produced by a successful `add_macd` call: the two EMA columns,
the macd, signal and histogram columns added in source order. -/
def macdFrame (df : Frame) (s l g : Int) (close : Column) : Frame :=
  ((((df.withColumn (emaName s) (ewmMean s.toNat close)).withColumn (emaName l)
    (ewmMean l.toNat close)).withColumn (macdColName s l) (macdColumn s l close)).withColumn
    (macdSignalName g) (macdSignalColumn g s l close)).withColumn "macd_histogram"
    (colMap2 F.sub (macdColumn s l close) (macdSignalColumn g s l close))

/-- All column names `add_all_indicators` can write for given parameters. -/
def addAllNames (sps eps : List Int) (rp ms ml sg bp ap : Int) : List String :=
  sps.map smaName ++ eps.map emaName ++ [rsiName rp] ++
  [emaName ms, emaName ml, macdColName ms ml, macdSignalName sg, "macd_histogram"] ++
  [bbMiddleName bp, bbUpperName bp, bbLowerName bp, bbStdName bp] ++ [atrName ap, "vwap"]

/-- Concrete one-bar frame holding only a `date` column. -/
def dateOnlyFrame : Frame := [("date", finCol [0])]

/-- Fractional decimal digits of `num/den` (for `0 < num < den`) by
fuel-bounded long division, as Python renders the terminating fraction of a
float. -/
def fracDigits : ℕ → ℕ → ℕ → String
  | 0, _, _ => ""
  | fuel + 1, num, den =>
    if num = 0 then ""
    else Nat.repr (num * 10 / den) ++ fracDigits fuel (num * 10 % den) den

/-- Rendering of a float value held exactly as a rational, as Python `str()`
produces it inside an f-string: sign, integer part, decimal point, fractional
digits (floats render as terminating decimals; 17 digits cover the shortest
round-trip `repr` of any double).  `str(2.5)` is `"2.5"`, `str(2.0)` is
`"2.0"`. -/
def ratFloatStr (q : ℚ) : String :=
  (if q < 0 then "-" else "") ++ Nat.repr (q.num.natAbs / q.den) ++ "." ++
    (if q.num.natAbs % q.den = 0 then "0"
     else fracDigits 17 (q.num.natAbs % q.den) q.den)

/-- Model of polars `ewm_mean(span=s)` with its `span` argument at its actual
type: polars takes `span` as a float and computes `alpha = 2/(s+1)` with no
integrality requirement. -/
def ewmMeanSpan (span : ℚ) (c : Column) : Column :=
  ewmGo (1 - 2 / (span + 1)) c (F.fin 0) (F.fin 0)

/-- Embedding of `add_ema` invoked with a non-integer (float) period: the
`period:int` hint is not enforced at runtime, and polars `ewm_mean` takes
`span` as a float, validating only `span >= 1`, so the call goes through with
`alpha = 2/(period+1)` and the f-string alias renders the float
(`ema_{period}`, e.g. `ema_2.5`). -/
def addEmaSpan (df : Frame) (period : ℚ) : Except String Frame :=
  if period < 1 then .error "require span >= 1"
  else
    match df.getCol? "close" with
    | none => .error "column not found: close"
    | some close =>
      .ok (df.withColumn ("ema_" ++ ratFloatStr period) (ewmMeanSpan period close))

/-! ### Scalar arithmetic lemmas -/

@[simp]
theorem F.neg_fin (a : ℚ) : F.neg (F.fin a) = F.fin (-a) := rfl

@[simp]
theorem F.add_fin (a b : ℚ) : F.add (F.fin a) (F.fin b) = F.fin (a + b) := rfl

@[simp]
theorem F.sub_fin (a b : ℚ) : F.sub (F.fin a) (F.fin b) = F.fin (a - b) := by
  simp [F.sub, sub_eq_add_neg]

@[simp]
theorem F.mul_fin (a b : ℚ) : F.mul (F.fin a) (F.fin b) = F.fin (a * b) := rfl

theorem F.div_fin (a b : ℚ) (hb : b ≠ 0) : F.div (F.fin a) (F.fin b) = F.fin (a / b) := by
  simp [F.div, hb]

theorem F.div_pos_zero (a : ℚ) (ha : 0 < a) : F.div (F.fin a) (F.fin 0) = F.pinf := by
  simp [F.div, ha, ha.ne']

@[simp]
theorem F.div_zero_zero : F.div (F.fin 0) (F.fin 0) = F.nan := by
  simp [F.div]

@[simp]
theorem F.add_fin_pinf (a : ℚ) : F.add (F.fin a) F.pinf = F.pinf := rfl

@[simp]
theorem F.div_fin_pinf (a : ℚ) : F.div (F.fin a) F.pinf = F.fin 0 := rfl

@[simp]
theorem F.add_fin_nan (a : ℚ) : F.add (F.fin a) F.nan = F.nan := rfl

@[simp]
theorem F.div_fin_nan (a : ℚ) : F.div (F.fin a) F.nan = F.nan := rfl

@[simp]
theorem F.sub_fin_nan (a : ℚ) : F.sub (F.fin a) F.nan = F.nan := rfl

@[simp]
theorem F.maxT_fin (a b : ℚ) : F.maxT (F.fin a) (F.fin b) = F.fin (max a b) := by
  rcases le_total a b with h | h
  · simp [F.maxT, F.leT, h, max_eq_right h]
  · rcases eq_or_lt_of_le h with rfl | hlt
    · simp [F.maxT, F.leT]
    · simp [F.maxT, F.leT, not_le.mpr hlt, max_eq_left h]

@[simp]
theorem F.abs_fin (a : ℚ) : F.abs (F.fin a) = F.fin |a| := rfl

theorem cellsSum_map_fin (l : List ℚ) : cellsSum (l.map F.fin) = F.fin l.sum := by
  induction l with
  | nil => rfl
  | cons a rest ih =>
    simp only [List.map_cons, cellsSum, List.foldr_cons, List.sum_cons]
    have h : (rest.map F.fin).foldr F.add (F.fin 0) = F.fin rest.sum := ih
    rw [h, F.add_fin]

/-! ### Decimal renderings in column names -/

theorem strData_append (s t : String) : (s ++ t).data = s.data ++ t.data := by
  cases s; cases t; rfl

theorem strExt (s t : String) (h : s.data = t.data) : s = t := by
  cases s; cases t; exact congrArg String.mk h

theorem toDigitsCore_shift (b f : ℕ) :
    ∀ (n : ℕ) (ds : List Char),
      Nat.toDigitsCore b f n ds = Nat.toDigitsCore b f n [] ++ ds := by
  induction f with
  | zero => intro n ds; simp [Nat.toDigitsCore]
  | succ f ih =>
    intro n ds
    simp only [Nat.toDigitsCore]
    by_cases h : n / b = 0
    · simp [h]
    · simp only [h, if_false]
      rw [ih (n / b) (Nat.digitChar (n % b) :: ds), ih (n / b) [Nat.digitChar (n % b)]]
      simp

theorem digitChar_isDigit : ∀ m : ℕ, m < 10 → (Nat.digitChar m).isDigit = true := by decide

theorem digitChar_val : ∀ m : ℕ, m < 10 → (Nat.digitChar m).toNat - 48 = m := by decide

theorem toDigitsCore_digits (f : ℕ) :
    ∀ n : ℕ, ∀ c ∈ Nat.toDigitsCore 10 f n [], c.isDigit = true := by
  induction f with
  | zero => intro n c hc; simp [Nat.toDigitsCore] at hc
  | succ f ih =>
    intro n c hc
    simp only [Nat.toDigitsCore] at hc
    by_cases h : n / 10 = 0
    · simp [h] at hc
      subst hc
      exact digitChar_isDigit _ (Nat.mod_lt _ (by omega))
    · simp only [h, if_false] at hc
      rw [toDigitsCore_shift] at hc
      rcases List.mem_append.mp hc with h1 | h2
      · exact ih _ c h1
      · simp at h2
        subst h2
        exact digitChar_isDigit _ (Nat.mod_lt _ (by omega))

theorem toDigitsCore_ne_nil (f n : ℕ) : Nat.toDigitsCore 10 (f + 1) n [] ≠ [] := by
  simp only [Nat.toDigitsCore]
  by_cases h : n / 10 = 0
  · simp [h]
  · simp only [h, if_false]
    rw [toDigitsCore_shift]
    simp

theorem parseDigits_snoc (xs : List Char) (c : Char) :
    parseDigits (xs ++ [c]) = 10 * parseDigits xs + (c.toNat - 48) := by
  simp [parseDigits, List.foldl_append]

theorem parse_toDigitsCore :
    ∀ f n : ℕ, n < f → parseDigits (Nat.toDigitsCore 10 f n []) = n := by
  intro f
  induction f with
  | zero => intro n hn; omega
  | succ f ih =>
    intro n hn
    simp only [Nat.toDigitsCore]
    by_cases h : n / 10 = 0
    · have hlt : n < 10 := by omega
      have hmod : n % 10 = n := Nat.mod_eq_of_lt hlt
      have hv := digitChar_val n hlt
      simp [h, parseDigits, hmod, hv]
    · simp only [h, if_false]
      rw [toDigitsCore_shift, parseDigits_snoc]
      have hrec : n / 10 < f := by omega
      rw [ih (n / 10) hrec, digitChar_val (n % 10) (Nat.mod_lt _ (by omega))]
      omega

theorem natRepr_inj (m n : ℕ) (h : Nat.repr m = Nat.repr n) : m = n := by
  have hd : Nat.toDigits 10 m = Nat.toDigits 10 n := by
    have := congrArg String.data h
    simpa [Nat.repr, List.asString] using this
  have hm := parse_toDigitsCore (m + 1) m (by omega)
  have hn := parse_toDigitsCore (n + 1) n (by omega)
  simp only [Nat.toDigits] at hd
  rw [hd] at hm
  omega

theorem natRepr_head (n : ℕ) :
    ∃ c cs, (Nat.repr n).data = c :: cs ∧ c.isDigit = true := by
  have hne : Nat.toDigits 10 n ≠ [] := toDigitsCore_ne_nil n n
  have hdig := toDigitsCore_digits (n + 1) n
  rcases hl : Nat.toDigits 10 n with _ | ⟨c, cs⟩
  · exact absurd hl hne
  · refine ⟨c, cs, ?_, ?_⟩
    · simp [Nat.repr, List.asString, hl]
    · exact hdig c (by rw [Nat.toDigits] at hl; rw [hl]; simp)

theorem toString_int_pos (p : Int) (hp : 1 ≤ p) : toString p = Nat.repr p.toNat := by
  obtain ⟨m, rfl⟩ : ∃ m : ℕ, p = (m : Int) := ⟨p.toNat, by omega⟩
  rfl

theorem intStr_head (p : Int) (hp : 1 ≤ p) :
    ∃ c cs, (toString p).data = c :: cs ∧ c.isDigit = true := by
  rw [toString_int_pos p hp]
  exact natRepr_head p.toNat

theorem toString_int_inj (p q : Int) (hp : 1 ≤ p) (hq : 1 ≤ q) (h : toString p = toString q) :
    p = q := by
  rw [toString_int_pos p hp, toString_int_pos q hq] at h
  have := natRepr_inj _ _ h
  omega

theorem emaName_inj (p q : Int) (hp : 1 ≤ p) (hq : 1 ≤ q) (hne : p ≠ q) :
    emaName p ≠ emaName q := by
  intro h
  have hd := congrArg String.data h
  simp only [emaName, strData_append] at hd
  simp only [List.cons_append, List.nil_append, List.cons.injEq, true_and] at hd
  exact hne (toString_int_inj p q hp hq (strExt _ _ hd))

theorem macdColName_ne_signal (s l g : Int) (hs : 1 ≤ s) :
    macdColName s l ≠ macdSignalName g := by
  intro h
  have hd := congrArg String.data h
  simp only [macdColName, macdSignalName, strData_append] at hd
  obtain ⟨c, cs, hS, hdig⟩ := intStr_head s hs
  rw [hS] at hd
  simp only [List.cons_append, List.nil_append, List.append_assoc,
    List.cons.injEq, true_and] at hd
  rw [hd.1] at hdig
  exact absurd hdig (by decide)

theorem macdColName_ne_hist (s l : Int) (hs : 1 ≤ s) :
    macdColName s l ≠ "macd_histogram" := by
  intro h
  have hd := congrArg String.data h
  simp only [macdColName, strData_append] at hd
  obtain ⟨c, cs, hS, hdig⟩ := intStr_head s hs
  rw [hS] at hd
  simp only [List.cons_append, List.nil_append, List.append_assoc,
    List.cons.injEq, true_and] at hd
  rw [hd.1] at hdig
  exact absurd hdig (by decide)

theorem macdSignalName_ne_hist (g : Int) : macdSignalName g ≠ "macd_histogram" := by
  intro h
  have hd := congrArg String.data h
  simp only [macdSignalName, strData_append] at hd
  simp only [List.cons_append, List.nil_append, List.cons.injEq, true_and] at hd
  exact absurd hd.1 (by decide)

/-! ### Frame lemmas -/

theorem getCol?_withColumn_self (df : Frame) (n : String) (c : Column) :
    (Frame.withColumn df n c).getCol? n = some c := by
  induction df with
  | nil => simp [Frame.withColumn, Frame.getCol?]
  | cons p rest ih =>
    by_cases h : p.1 = n
    · simp [Frame.withColumn, h, Frame.getCol?]
    · simp [Frame.withColumn, h, Frame.getCol?, ih]

theorem getCol?_withColumn_ne (df : Frame) (n n' : String) (c : Column) (h : n' ≠ n) :
    (Frame.withColumn df n c).getCol? n' = df.getCol? n' := by
  induction df with
  | nil => simp [Frame.withColumn, Frame.getCol?, Ne.symm h]
  | cons p rest ih =>
    by_cases hp : p.1 = n
    · simp [Frame.withColumn, hp, Frame.getCol?, Ne.symm h]
    · by_cases hp' : p.1 = n'
      · simp [Frame.withColumn, hp, Frame.getCol?, hp', h]
      · simp [Frame.withColumn, hp, Frame.getCol?, hp', ih]

theorem names_withColumn (df : Frame) (n : String) (c : Column) :
    (df.withColumn n c).map Prod.fst =
      if n ∈ df.map Prod.fst then df.map Prod.fst else df.map Prod.fst ++ [n] := by
  induction df with
  | nil => simp [Frame.withColumn]
  | cons p rest ih =>
    by_cases h : p.1 = n
    · simp [Frame.withColumn, h]
    · simp only [Frame.withColumn, if_neg h, List.map_cons, ih]
      by_cases hm : n ∈ rest.map Prod.fst
      · simp [hm, Ne.symm h]
      · simp [hm, Ne.symm h]

theorem mem_withColumn (df : Frame) (n : String) (c : Column) (q : String × Column)
    (hq : q ∈ df.withColumn n c) : q = (n, c) ∨ q ∈ df := by
  induction df with
  | nil => simp [Frame.withColumn] at hq; simp [hq]
  | cons p rest ih =>
    by_cases h : p.1 = n
    · simp only [Frame.withColumn, if_pos h, List.mem_cons] at hq
      rcases hq with h1 | h2
      · exact Or.inl h1
      · exact Or.inr (List.mem_cons_of_mem _ h2)
    · simp only [Frame.withColumn, if_neg h, List.mem_cons] at hq
      rcases hq with h1 | h2
      · exact Or.inr (by simp [h1])
      · rcases ih h2 with h3 | h3
        · exact Or.inl h3
        · exact Or.inr (List.mem_cons_of_mem _ h3)

theorem height_withColumn (df : Frame) (n : String) (c : Column)
    (hc : c.length = df.height) : (df.withColumn n c).height = df.height := by
  cases df with
  | nil => simpa [Frame.withColumn, Frame.height] using hc
  | cons p rest =>
    by_cases h : p.1 = n
    · simpa [Frame.withColumn, h, Frame.height] using hc
    · simp [Frame.withColumn, h, Frame.height]

theorem wf_withColumn (df : Frame) (n : String) (c : Column) (hwf : df.wf)
    (hc : c.length = df.height) : (df.withColumn n c).wf := by
  obtain ⟨hnd, hlen⟩ := hwf
  constructor
  · rw [names_withColumn]
    by_cases hm : n ∈ df.map Prod.fst
    · simpa [hm] using hnd
    · simp only [hm, if_false]
      rw [List.nodup_append]
      exact ⟨hnd, List.nodup_singleton n, by simpa using hm⟩
  · intro q hq
    rw [height_withColumn df n c hc]
    rcases mem_withColumn df n c q hq with h1 | h1
    · rw [h1]; exact hc
    · exact hlen q h1

theorem getCol?_mem (df : Frame) (n : String) (c : Column) (h : df.getCol? n = some c) :
    ∃ p ∈ df, p.2 = c := by
  induction df with
  | nil => simp [Frame.getCol?] at h
  | cons p rest ih =>
    by_cases hp : p.1 = n
    · simp only [Frame.getCol?, if_pos hp, Option.some.injEq] at h
      exact ⟨p, by simp, h⟩
    · simp only [Frame.getCol?, if_neg hp] at h
      obtain ⟨q, hq, hq2⟩ := ih h
      exact ⟨q, List.mem_cons_of_mem _ hq, hq2⟩

theorem getCol?_length (df : Frame) (n : String) (c : Column) (hwf : df.wf)
    (h : df.getCol? n = some c) : c.length = df.height := by
  obtain ⟨p, hp, hp2⟩ := getCol?_mem df n c h
  rw [← hp2]
  exact hwf.2 p hp

/-! ### Column length lemmas -/

@[simp]
theorem rollingMean_length (w : ℕ) (c : Column) : (rollingMean w c).length = c.length := by
  simp [rollingMean]

@[simp]
theorem rollingStd_length (sq : ℚ → ℚ) (w : ℕ) (c : Column) :
    (rollingStd sq w c).length = c.length := by
  simp [rollingStd]

theorem ewmGo_length (r : ℚ) (c : Column) :
    ∀ num den, (ewmGo r c num den).length = c.length := by
  induction c with
  | nil => intro num den; rfl
  | cons x rest ih => intro num den; cases x <;> simp [ewmGo, ih]

@[simp]
theorem ewmMean_length (span : ℕ) (c : Column) : (ewmMean span c).length = c.length := by
  simp [ewmMean, ewmGo_length]

theorem cumSumGo_length (c : Column) : ∀ acc, (cumSumGo c acc).length = c.length := by
  induction c with
  | nil => intro acc; rfl
  | cons x rest ih => intro acc; cases x <;> simp [cumSumGo, ih]

@[simp]
theorem cumSum_length (c : Column) : (cumSum c).length = c.length := by
  simp [cumSum, cumSumGo_length]

@[simp]
theorem shiftOne_length (c : Column) : (shiftOne c).length = c.length := by
  cases c with
  | nil => rfl
  | cons x rest => simp [shiftOne]

@[simp]
theorem colMap2_length (f : F → F → F) (a b : Column) :
    (colMap2 f a b).length = min a.length b.length := by
  simp [colMap2]

@[simp]
theorem colDiff_length (c : Column) : (colDiff c).length = c.length := by
  simp [colDiff]

@[simp]
theorem finCol_length (l : List ℚ) : (finCol l).length = l.length := by
  simp [finCol]

@[simp]
theorem rsiColumn_length (p : ℕ) (c : Column) : (rsiColumn p c).length = c.length := by
  simp [rsiColumn, avgGainCol, avgLossCol]

theorem maxHorizontal3_length (a b c : Column) :
    (maxHorizontal3 a b c).length = min (min a.length b.length) c.length := by
  simp [maxHorizontal3]

theorem trueRange_length (h l c : Column) (n : ℕ) (hh : h.length = n) (hl : l.length = n)
    (hc : c.length = n) : (trueRange h l c).length = n := by
  simp [trueRange, maxHorizontal3, hh, hl, hc]

theorem typicalPrice_length (h l c : Column) (n : ℕ) (hh : h.length = n) (hl : l.length = n)
    (hc : c.length = n) : (typicalPrice h l c).length = n := by
  simp [typicalPrice, hh, hl, hc]

theorem vwapColumn_length (h l c v : Column) (n : ℕ) (hh : h.length = n) (hl : l.length = n)
    (hc : c.length = n) (hv : v.length = n) : (vwapColumn h l c v).length = n := by
  simp [vwapColumn, cumSum, cumSumGo_length, typicalPrice_length h l c n hh hl hc, hv]

/-! ### Except plumbing -/

theorem exBind_ok {α β : Type} (a : α) (f : α → Except String β) :
    (Except.ok a >>= f) = f a := rfl

theorem exBind_err {α β : Type} (e : String) (f : α → Except String β) :
    ((Except.error e : Except String α) >>= f) = Except.error e := rfl

/-! ### Pointwise characterizations of the column transforms -/

theorem finCol_take (l : List ℚ) (k : ℕ) : (finCol l).take k = finCol (l.take k) := by
  simp [finCol, List.map_take]

theorem finCol_drop (l : List ℚ) (k : ℕ) : (finCol l).drop k = finCol (l.drop k) := by
  simp [finCol, List.map_drop]

theorem finCol_filterMap (l : List ℚ) : (finCol l).filterMap id = l.map F.fin := by
  rw [finCol, List.filterMap_map]
  have h : (id ∘ fun q : ℚ => some (F.fin q)) = some ∘ F.fin := rfl
  rw [h, List.filterMap_eq_map]

theorem rollingMean_finCol_getElem (w : ℕ) (hw : 1 ≤ w) (qs : List ℚ) (i : ℕ)
    (hi : i < qs.length) :
    (rollingMean w (finCol qs))[i]? =
      some (if i + 1 < w then none
        else some (F.fin (((qs.take (i + 1)).drop (i + 1 - w)).sum / (w : ℚ)))) := by
  unfold rollingMean
  rw [List.getElem?_map, List.getElem?_range (by simpa using hi)]
  simp only [Option.map_some']
  congr 1
  unfold rollingMeanCell windowAt
  rw [finCol_take, finCol_drop, finCol_filterMap]
  have hlen : ((qs.take (i + 1)).drop (i + 1 - w)).length = (i + 1) - (i + 1 - w) := by
    rw [List.length_drop, List.length_take]
    omega
  by_cases hcase : i + 1 < w
  · rw [if_pos (by simp [hlen]; omega), if_pos hcase]
  · rw [if_neg (by simp [hlen]; omega), if_neg hcase]
    rw [cellsSum_map_fin, F.div_fin _ _ (by exact_mod_cast (by omega : w ≠ 0))]

theorem rollingMean_nullHead_getElem (w : ℕ) (hw : 1 ≤ w) (gs : List ℚ) (i : ℕ)
    (hi : i < gs.length + 1) :
    (rollingMean w ((none : Cell) :: finCol gs))[i]? =
      some (if i < w then none
        else some (F.fin (((gs.take i).drop (i - w)).sum / (w : ℚ)))) := by
  unfold rollingMean
  rw [List.getElem?_map, List.getElem?_range (by simpa using hi)]
  simp only [Option.map_some']
  congr 1
  unfold rollingMeanCell windowAt
  have htake : ((none : Cell) :: finCol gs).take (i + 1) = none :: finCol (gs.take i) := by
    simp [finCol_take]
  rw [htake]
  by_cases hcase : i < w
  · have hdz : i + 1 - w = 0 := by omega
    rw [hdz, List.drop_zero]
    have hfil : ((none : Cell) :: finCol (gs.take i)).filterMap id = (gs.take i).map F.fin := by
      rw [show ((none : Cell) :: finCol (gs.take i)).filterMap id =
          (finCol (gs.take i)).filterMap id from rfl, finCol_filterMap]
    rw [hfil, if_pos (by simp only [List.length_map, List.length_take]; omega), if_pos hcase]
  · have hds : i + 1 - w = (i - w) + 1 := by omega
    rw [hds, List.drop_succ_cons, finCol_drop, finCol_filterMap]
    have hlen : (((gs.take i).drop (i - w)).map F.fin).length = w := by
      simp only [List.length_map, List.length_drop, List.length_take]
      omega
    rw [if_neg (by rw [hlen]; omega), if_neg hcase]
    rw [cellsSum_map_fin, F.div_fin _ _ (by exact_mod_cast (by omega : w ≠ 0))]

theorem ewmGo_fin_getElem (r : ℚ) (hr : 0 ≤ r) (qs : List ℚ) :
    ∀ (a b : ℚ), 0 ≤ b → ∀ i : ℕ, i < qs.length →
      (ewmGo r (finCol qs) (F.fin a) (F.fin b))[i]? =
        some (some (F.fin
          ((r ^ (i + 1) * a + ∑ j ∈ Finset.range (i + 1), r ^ (i - j) * qs.getD j 0) /
           (r ^ (i + 1) * b + ∑ j ∈ Finset.range (i + 1), r ^ j)))) := by
  induction qs with
  | nil => intro a b hb i hi; simp at hi
  | cons q rest ih =>
    intro a b hb i hi
    have hstep : ewmGo r (finCol (q :: rest)) (F.fin a) (F.fin b)
        = some (F.div (F.fin (q + r * a)) (F.fin (1 + r * b)))
          :: ewmGo r (finCol rest) (F.fin (q + r * a)) (F.fin (1 + r * b)) := by
      simp [finCol, ewmGo]
    rw [hstep]
    cases i with
    | zero =>
      have hden : (1 : ℚ) + r * b ≠ 0 := by positivity
      rw [List.getElem?_cons_zero, F.div_fin _ _ hden]
      congr 3
      simp [Finset.sum_range_succ]
      ring
    | succ j =>
      have hj : j < rest.length := by simpa using hi
      have htail := ih (q + r * a) (1 + r * b) (by positivity) j hj
      rw [List.getElem?_cons_succ, htail]
      congr 3
      have hnum : ∑ k ∈ Finset.range (j + 2), r ^ (j + 1 - k) * (q :: rest).getD k 0
          = r ^ (j + 1) * q + ∑ k ∈ Finset.range (j + 1), r ^ (j - k) * rest.getD k 0 := by
        rw [Finset.sum_range_succ']
        simp only [Nat.succ_sub_succ, List.getD_cons_succ, List.getD_cons_zero, Nat.sub_zero]
        ring
      have hden : (∑ k ∈ Finset.range (j + 2), r ^ k)
          = (∑ k ∈ Finset.range (j + 1), r ^ k) + r ^ (j + 1) :=
        Finset.sum_range_succ _ _
      rw [hnum, hden]
      ring

theorem ewmMean_finCol_getElem (span : ℕ) (hs : 1 ≤ span) (qs : List ℚ) (i : ℕ)
    (hi : i < qs.length) :
    (ewmMean span (finCol qs))[i]? =
      some (some (F.fin
        ((∑ j ∈ Finset.range (i + 1), (1 - 2 / ((span : ℚ) + 1)) ^ (i - j) * qs.getD j 0) /
         (∑ j ∈ Finset.range (i + 1), (1 - 2 / ((span : ℚ) + 1)) ^ j)))) := by
  have h1 : (1 : ℚ) ≤ (span : ℚ) := by exact_mod_cast hs
  have hr : 0 ≤ 1 - 2 / ((span : ℚ) + 1) := by
    rw [sub_nonneg, div_le_one (by linarith)]
    linarith
  have h := ewmGo_fin_getElem _ hr qs 0 0 le_rfl i hi
  unfold ewmMean
  rw [h]
  simp

theorem colMap2_getElem? (f : F → F → F) (a b : Column) (i : ℕ) (x y : Cell)
    (ha : a[i]? = some x) (hb : b[i]? = some y) :
    (colMap2 f a b)[i]? = some (cellMap2 f x y) := by
  simp [colMap2, List.getElem?_zipWith', ha, hb]

theorem cumSumGo_finCol_getElem (qs : List ℚ) :
    ∀ (a : ℚ) (i : ℕ), i < qs.length →
      (cumSumGo (finCol qs) (F.fin a))[i]? = some (some (F.fin (a + (qs.take (i + 1)).sum))) := by
  induction qs with
  | nil => intro a i hi; simp at hi
  | cons q rest ih =>
    intro a i hi
    have hstep : cumSumGo (finCol (q :: rest)) (F.fin a)
        = some (F.fin (a + q)) :: cumSumGo (finCol rest) (F.fin (a + q)) := by
      simp [finCol, cumSumGo]
    rw [hstep]
    cases i with
    | zero => simp
    | succ j =>
      have hj : j < rest.length := by simpa using hi
      rw [List.getElem?_cons_succ, ih (a + q) j hj]
      congr 3
      simp [List.take_succ_cons]
      ring

theorem cumSum_finCol_getElem (qs : List ℚ) (i : ℕ) (hi : i < qs.length) :
    (cumSum (finCol qs))[i]? = some (some (F.fin ((qs.take (i + 1)).sum))) := by
  rw [cumSum, cumSumGo_finCol_getElem qs 0 i hi]
  simp

/-! ### Shape of the RSI gain and loss columns -/

theorem colMap2_finCol (f : F → F → F) (g : ℚ → ℚ → ℚ)
    (hfg : ∀ a b, f (F.fin a) (F.fin b) = F.fin (g a b)) :
    ∀ xs ys : List ℚ, colMap2 f (finCol xs) (finCol ys) = finCol (List.zipWith g xs ys) := by
  intro xs
  induction xs with
  | nil => intro ys; simp [finCol, colMap2]
  | cons x xs ih =>
    intro ys
    cases ys with
    | nil => simp [finCol, colMap2]
    | cons y ys =>
      have htail := ih ys
      simp only [finCol, List.map_cons, colMap2, List.zipWith_cons_cons, cellMap2, hfg]
      simp only [colMap2, finCol] at htail
      rw [htail]

theorem map_gainCell_finCol (l : List ℚ) :
    (finCol l).map gainCell = finCol (l.map (fun q => if 0 < q then q else 0)) := by
  induction l with
  | nil => rfl
  | cons q rest ih =>
    simp only [finCol, List.map_cons] at ih ⊢
    rw [ih]
    by_cases h : 0 < q <;> simp [gainCell, F.gtZero, h]

theorem map_lossCell_finCol (l : List ℚ) :
    (finCol l).map lossCell = finCol (l.map (fun q => if q < 0 then -q else 0)) := by
  induction l with
  | nil => rfl
  | cons q rest ih =>
    simp only [finCol, List.map_cons] at ih ⊢
    rw [ih]
    by_cases h : q < 0 <;> simp [lossCell, F.ltZero, F.neg, h]

theorem colDiff_finCol (q0 : ℚ) (rest : List ℚ) :
    colDiff (finCol (q0 :: rest)) =
      none :: finCol (List.zipWith (fun a b => a - b) rest ((q0 :: rest).dropLast)) := by
  unfold colDiff
  have hshift : shiftOne (finCol (q0 :: rest)) = none :: finCol ((q0 :: rest).dropLast) := by
    simp [finCol, shiftOne, List.map_dropLast]
  rw [hshift]
  have hhead : finCol (q0 :: rest) = some (F.fin q0) :: finCol rest := rfl
  rw [hhead]
  simp only [colMap2, List.zipWith_cons_cons, cellMap2]
  rw [show List.zipWith (cellMap2 F.sub) (finCol rest) (finCol ((q0 :: rest).dropLast))
      = colMap2 F.sub (finCol rest) (finCol ((q0 :: rest).dropLast)) from rfl]
  rw [colMap2_finCol F.sub (fun a b => a - b) (fun a b => F.sub_fin a b) rest _]

/-- The gains column of `add_rsi` on a finite close series: a leading null
from the undefined first delta, then finite gains. -/
theorem gainColumn_eq (q0 : ℚ) (rest : List ℚ) :
    (colDiff (finCol (q0 :: rest))).map gainCell =
      none :: finCol ((List.zipWith (fun a b => a - b) rest ((q0 :: rest).dropLast)).map
        (fun q => if 0 < q then q else 0)) := by
  rw [colDiff_finCol, List.map_cons, map_gainCell_finCol]
  rfl

/-- The losses column of `add_rsi` on a finite close series. -/
theorem lossColumn_eq (q0 : ℚ) (rest : List ℚ) :
    (colDiff (finCol (q0 :: rest))).map lossCell =
      none :: finCol ((List.zipWith (fun a b => a - b) rest ((q0 :: rest).dropLast)).map
        (fun q => if q < 0 then -q else 0)) := by
  rw [colDiff_finCol, List.map_cons, map_lossCell_finCol]
  rfl

/-! ### Claim C4 -/

/-- C4 (confirmed): for a series of length `n` and a window `1 ≤ w`, the
`sma_{w}` column from `add_sma` is null exactly at the `w - 1` leading
positions and equals the exact arithmetic mean of the trailing `w`-window
everywhere else (exact rational equality, hence within any tolerance); for
`w > n` the call still succeeds and the column is all null. -/
theorem c4_sma_rolling_mean (df : Frame) (cq : List ℚ) (w : Int)
    (hc : df.getCol? "close" = some (finCol cq)) (hw : 1 ≤ w) :
    addSma df w = Except.ok (df.withColumn (smaName w) (rollingMean w.toNat (finCol cq))) ∧
    (∀ i : ℕ, i < cq.length →
      (i + 1 < w.toNat → (rollingMean w.toNat (finCol cq))[i]? = some none) ∧
      (w.toNat ≤ i + 1 →
        (rollingMean w.toNat (finCol cq))[i]? =
          some (some (F.fin
            (((cq.take (i + 1)).drop (i + 1 - w.toNat)).sum / (w.toNat : ℚ)))))) ∧
    ((cq.length : Int) < w → ∀ i : ℕ, i < cq.length →
      (rollingMean w.toNat (finCol cq))[i]? = some none) := by
  have hw' : 1 ≤ w.toNat := by omega
  refine ⟨?_, ?_, ?_⟩
  · unfold addSma
    rw [if_neg (by omega), hc]
  · intro i hi
    constructor
    · intro h
      rw [rollingMean_finCol_getElem _ hw' cq i hi, if_pos h]
    · intro h
      rw [rollingMean_finCol_getElem _ hw' cq i hi, if_neg (by omega)]
  · intro hlen i hi
    rw [rollingMean_finCol_getElem _ hw' cq i hi, if_pos (by omega)]

/-- C4 witness: concrete instance of `c4_sma_rolling_mean`. -/
theorem c4_sma_rolling_mean_witness :
    ohlcvFrame1.getCol? "close" = some (finCol [1]) ∧
    addSma ohlcvFrame1 1 =
      Except.ok (ohlcvFrame1.withColumn (smaName 1) (rollingMean 1 (finCol [1]))) ∧
    (rollingMean 1 (finCol [1]))[0]? = some (some (F.fin ((([1] : List ℚ).take 1).sum / 1))) := by
  refine ⟨by decide, (c4_sma_rolling_mean ohlcvFrame1 [1] 1 (by decide) (by decide)).1, ?_⟩
  have h := ((c4_sma_rolling_mean ohlcvFrame1 [1] 1 (by decide) (by decide)).2.1 0
    (by decide)).2 (by decide)
  simpa using h

/-! ### Claim C1 -/

/-- C1 counterexample: `add_ema` uses the polars adjusted exponentially
weighted mean, not the seeded recurrence.  On close `[0, 1]` with period 2
(`alpha = 2/3`) the produced `ema_2[1]` is `3/4`, while the claimed recurrence
`alpha*close[1] + (1-alpha)*ema[0]` gives `2/3`. -/
theorem c1_counterexample :
    addEma twoBarClose 2 =
      Except.ok (twoBarClose.withColumn (emaName 2) (ewmMean 2 (finCol [0, 1]))) ∧
    (ewmMean 2 (finCol [0, 1]))[0]? = some (some (F.fin 0)) ∧
    (ewmMean 2 (finCol [0, 1]))[1]? = some (some (F.fin (3 / 4))) ∧
    (3 / 4 : ℚ) ≠ (2 / (2 + 1)) * 1 + (1 - 2 / (2 + 1)) * 0 := by
  refine ⟨rfl, ?_, ?_, by norm_num⟩
  · simp only [ewmMean, finCol, List.map_cons, List.map_nil, ewmGo]
    norm_num [F.div_fin]
  · simp only [ewmMean, finCol, List.map_cons, List.map_nil, ewmGo]
    norm_num [F.div_fin]

/-- C1 (amended): with `alpha = 2/(p+1)`, the `ema_{p}` column produced by
`add_ema` equals the adjusted exponentially weighted mean
`ema[t] = (Σ (1-alpha)^(t-j)·close[j]) / (Σ (1-alpha)^(t-j))` (polars
`ewm_mean` with its default `adjust=True`); in particular
`ema[0] = close[0]`, but for `t > 0` the value differs in general from the
seeded recurrence `alpha*close[t] + (1-alpha)*ema[t-1]`. -/
theorem c1_ema_adjusted (df : Frame) (cq : List ℚ) (p : Int)
    (hc : df.getCol? "close" = some (finCol cq)) (hp : 1 ≤ p) :
    addEma df p = Except.ok (df.withColumn (emaName p) (ewmMean p.toNat (finCol cq))) ∧
    ∀ i : ℕ, i < cq.length →
      (ewmMean p.toNat (finCol cq))[i]? =
        some (some (F.fin
          ((∑ j ∈ Finset.range (i + 1), (1 - 2 / ((p.toNat : ℚ) + 1)) ^ (i - j) * cq.getD j 0) /
           (∑ j ∈ Finset.range (i + 1), (1 - 2 / ((p.toNat : ℚ) + 1)) ^ j)))) := by
  constructor
  · unfold addEma
    rw [if_neg (by omega), hc]
  · intro i hi
    exact ewmMean_finCol_getElem p.toNat (by omega) cq i hi

/-- C1 witness: concrete instance of `c1_ema_adjusted`. -/
theorem c1_ema_adjusted_witness :
    ohlcvFrame1.getCol? "close" = some (finCol [1]) ∧
    addEma ohlcvFrame1 2 =
      Except.ok (ohlcvFrame1.withColumn (emaName 2) (ewmMean 2 (finCol [1]))) :=
  ⟨by decide, (c1_ema_adjusted ohlcvFrame1 [1] 2 (by decide) (by decide)).1⟩

/-! ### Cell-level evaluation lemmas -/

@[simp]
theorem cellMap2_some_some (f : F → F → F) (a b : F) :
    cellMap2 f (some a) (some b) = some (f a b) := rfl

@[simp]
theorem cellMap2_none_left (f : F → F → F) (x : Cell) : cellMap2 f none x = none := by
  cases x <;> rfl

@[simp]
theorem cellMap2_none_right (f : F → F → F) (x : Cell) : cellMap2 f x none = none := by
  cases x <;> rfl

@[simp]
theorem gainCell_none : gainCell none = none := rfl

@[simp]
theorem lossCell_none : lossCell none = none := rfl

@[simp]
theorem rsiCell_none : rsiCell none = none := rfl

@[simp]
theorem rsiCell_some (rs : F) :
    rsiCell (some rs) =
      some (F.sub (F.fin 100) (F.div (F.fin 100) (F.add (F.fin 1) rs))) := rfl

/-! ### Claim C3 -/

/-- C3 (confirmed): in `add_rsi` the first delta is null, the
`when/then/otherwise` expression propagates the null predicate, so
`gain[0]` and `loss[0]` are null; with the rolling-mean warm-up this makes
`rsi_{p}` null exactly at indices `i < p` and non-null from index `p` on
(for series longer than `p`). -/
theorem c3_rsi_warmup (df : Frame) (cq : List ℚ) (p : Int)
    (hc : df.getCol? "close" = some (finCol cq)) (hp : 1 ≤ p) (hlen : p.toNat < cq.length) :
    addRsi df p = Except.ok (df.withColumn (rsiName p) (rsiColumn p.toNat (finCol cq))) ∧
    ((colDiff (finCol cq)).map gainCell)[0]? = some none ∧
    ((colDiff (finCol cq)).map lossCell)[0]? = some none ∧
    (∀ i : ℕ, i < p.toNat → (rsiColumn p.toNat (finCol cq))[i]? = some none) ∧
    (∀ i : ℕ, p.toNat ≤ i → i < cq.length →
      ∃ v : F, (rsiColumn p.toNat (finCol cq))[i]? = some (some v)) := by
  obtain ⟨q0, rest, rfl⟩ :=
    List.exists_cons_of_ne_nil (l := cq) (by intro h; rw [h] at hlen; simp at hlen)
  have hw : 1 ≤ p.toNat := by omega
  have hgain := gainColumn_eq q0 rest
  have hloss := lossColumn_eq q0 rest
  have hglen :
      ((List.zipWith (fun a b => a - b) rest ((q0 :: rest).dropLast)).map
        (fun q => if 0 < q then q else 0)).length = rest.length := by
    simp
  have hllen :
      ((List.zipWith (fun a b => a - b) rest ((q0 :: rest).dropLast)).map
        (fun q => if q < 0 then -q else 0)).length = rest.length := by
    simp
  have hacc : ∀ i : ℕ, i < rest.length + 1 →
      (avgGainCol p.toNat (finCol (q0 :: rest)))[i]? =
        some (if i < p.toNat then none
          else some (F.fin ((((((List.zipWith (fun a b => a - b) rest
            ((q0 :: rest).dropLast)).map (fun q => if 0 < q then q else 0)).take i).drop
            (i - p.toNat)).sum / (p.toNat : ℚ)))))
      ∧ (avgLossCol p.toNat (finCol (q0 :: rest)))[i]? =
        some (if i < p.toNat then none
          else some (F.fin ((((((List.zipWith (fun a b => a - b) rest
            ((q0 :: rest).dropLast)).map (fun q => if q < 0 then -q else 0)).take i).drop
            (i - p.toNat)).sum / (p.toNat : ℚ))))) := by
    intro i hi
    constructor
    · rw [avgGainCol, hgain, rollingMean_nullHead_getElem _ hw _ i (by rw [hglen]; omega)]
    · rw [avgLossCol, hloss, rollingMean_nullHead_getElem _ hw _ i (by rw [hllen]; omega)]
  refine ⟨?_, ?_, ?_, ?_, ?_⟩
  · unfold addRsi
    rw [if_neg (by omega), hc]
  · rw [hgain]; simp
  · rw [hloss]; simp
  · intro i hi
    have hi' : i < rest.length + 1 := by simp at hlen; omega
    obtain ⟨hg, hl⟩ := hacc i hi'
    rw [if_pos hi] at hg hl
    rw [rsiColumn, List.getElem?_map,
      colMap2_getElem? F.div _ _ i none none hg hl]
    simp
  · intro i h1 h2
    have hi' : i < rest.length + 1 := by simpa using h2
    obtain ⟨hg, hl⟩ := hacc i hi'
    rw [if_neg (by omega)] at hg hl
    rw [rsiColumn, List.getElem?_map,
      colMap2_getElem? F.div _ _ i _ _ hg hl]
    exact ⟨_, rfl⟩

/-- C3 witness: concrete instance of `c3_rsi_warmup` on close `[1, 2, 3]`
with period 2. -/
theorem c3_rsi_warmup_witness :
    riseClose.getCol? "close" = some (finCol [1, 2, 3]) ∧
    addRsi riseClose 2 =
      Except.ok (riseClose.withColumn (rsiName 2) (rsiColumn 2 (finCol [1, 2, 3]))) ∧
    (rsiColumn 2 (finCol [1, 2, 3]))[1]? = some none := by
  refine ⟨rfl, (c3_rsi_warmup riseClose [1, 2, 3] 2 rfl (by norm_num) (by norm_num)).1, ?_⟩
  exact (c3_rsi_warmup riseClose [1, 2, 3] 2 rfl (by norm_num) (by norm_num)).2.2.2.1 1
    (by norm_num)

/-! ### Claim C2 -/

/-- C2 counterexample: on the constant close series `[5, 5, 5]` with period 2,
index 2 has average gain and average loss both equal to zero, and the produced
`rsi_2` value there is `NaN` (the float `0/0` propagated through the formula),
not `None` as the claim requires. -/
theorem c2_counterexample :
    addRsi flatClose 2 =
      Except.ok (flatClose.withColumn (rsiName 2) (rsiColumn 2 (finCol [5, 5, 5]))) ∧
    (avgGainCol 2 (finCol [5, 5, 5]))[2]? = some (some (F.fin 0)) ∧
    (avgLossCol 2 (finCol [5, 5, 5]))[2]? = some (some (F.fin 0)) ∧
    (rsiColumn 2 (finCol [5, 5, 5]))[2]? = some (some F.nan) ∧
    some (F.nan : F) ≠ (none : Cell) := by
  refine ⟨rfl, ?_, ?_, ?_, by simp⟩ <;>
    norm_num [avgGainCol, avgLossCol, rsiColumn, colDiff, finCol, shiftOne, colMap2, rollingMean,
      rollingMeanCell, windowAt, gainCell, lossCell, cellsSum, F.gtZero, F.ltZero, F.div_fin,
      List.range_succ, id_eq, List.filterMap_cons]

/-- C2 (amended): wherever the rolling average loss is zero and the rolling
average gain is positive, the `rsi_{p}` cell produced by `add_rsi` is exactly
100 (the float division yields `+inf` and `100 - 100/(1+inf) = 100`);
wherever both averages are zero, the cell is `NaN` (`0/0` propagated), which
is non-null — not `None`, and not an arbitrary midpoint. -/
theorem c2_rsi_edge (df : Frame) (c : Column) (p : Int)
    (hc : df.getCol? "close" = some c) (hp : 1 ≤ p) :
    addRsi df p = Except.ok (df.withColumn (rsiName p) (rsiColumn p.toNat c)) ∧
    ∀ i : ℕ,
      (∀ g : ℚ, 0 < g → (avgGainCol p.toNat c)[i]? = some (some (F.fin g)) →
        (avgLossCol p.toNat c)[i]? = some (some (F.fin 0)) →
        (rsiColumn p.toNat c)[i]? = some (some (F.fin 100))) ∧
      ((avgGainCol p.toNat c)[i]? = some (some (F.fin 0)) →
        (avgLossCol p.toNat c)[i]? = some (some (F.fin 0)) →
        (rsiColumn p.toNat c)[i]? = some (some F.nan)) := by
  refine ⟨?_, ?_⟩
  · unfold addRsi
    rw [if_neg (by omega), hc]
  · intro i
    constructor
    · intro g hg hga hl
      rw [rsiColumn, List.getElem?_map, colMap2_getElem? F.div _ _ i _ _ hga hl]
      rw [cellMap2_some_some, F.div_pos_zero g hg]
      simp [F.sub, F.neg, F.add, F.div]
    · intro hga hl
      rw [rsiColumn, List.getElem?_map, colMap2_getElem? F.div _ _ i _ _ hga hl]
      simp

/-- C2 witness: concrete instance of `c2_rsi_edge` on the rising close
`[1, 2, 3]` with period 2, where the average loss is zero and the average
gain is 1, giving RSI exactly 100. -/
theorem c2_rsi_edge_witness :
    riseClose.getCol? "close" = some (finCol [1, 2, 3]) ∧
    addRsi riseClose 2 =
      Except.ok (riseClose.withColumn (rsiName 2) (rsiColumn 2 (finCol [1, 2, 3]))) ∧
    (rsiColumn 2 (finCol [1, 2, 3]))[2]? = some (some (F.fin 100)) := by
  refine ⟨rfl, (c2_rsi_edge riseClose (finCol [1, 2, 3]) 2 rfl (by norm_num)).1, ?_⟩
  refine ((c2_rsi_edge riseClose (finCol [1, 2, 3]) 2 rfl (by norm_num)).2 2).1 1
    (by norm_num) ?_ ?_ <;>
    norm_num [avgGainCol, avgLossCol, colDiff, finCol, shiftOne, colMap2, rollingMean,
      rollingMeanCell, windowAt, gainCell, lossCell, cellsSum, F.gtZero, F.ltZero, F.div_fin,
      List.range_succ, id_eq, List.filterMap_cons, show (2 : Int).toNat = 2 from rfl]

/-! ### Claim C5 -/

@[simp]
theorem maxCell2_none_left (x : Cell) : maxCell2 none x = x := rfl

@[simp]
theorem maxCell2_some_none (a : F) : maxCell2 (some a) none = some a := rfl

@[simp]
theorem maxCell2_some_some (a b : F) : maxCell2 (some a) (some b) = some (F.maxT a b) := rfl

theorem lt_of_getElem?_some {α : Type} (l : List α) (i : ℕ) (x : α) (h : l[i]? = some x) :
    i < l.length := by
  by_contra hcon
  rw [List.getElem?_eq_none (by omega)] at h
  exact Option.noConfusion h

theorem shiftOne_getElem_zero (co : Column) (hco : co ≠ []) : (shiftOne co)[0]? = some none := by
  cases co with
  | nil => exact absurd rfl hco
  | cons x xs => simp [shiftOne]

theorem shiftOne_getElem_succ (co : Column) (k : ℕ) (hk : k + 1 < co.length) :
    (shiftOne co)[k + 1]? = co[k]? := by
  cases co with
  | nil => simp at hk
  | cons x xs =>
    show ((none : Cell) :: (x :: xs).dropLast)[k + 1]? = (x :: xs)[k]?
    rw [List.getElem?_cons_succ, List.getElem?_dropLast, if_pos (by simpa using hk)]

theorem maxHorizontal3_getElem (a b co : Column) (i : ℕ) (x y z : Cell)
    (ha : a[i]? = some x) (hb : b[i]? = some y) (hco : co[i]? = some z) :
    (maxHorizontal3 a b co)[i]? = some (maxCell2 (maxCell2 x y) z) := by
  unfold maxHorizontal3
  rw [List.getElem?_zipWith', List.getElem?_zipWith', ha, hb, hco]
  rfl

theorem finCol_getElem (l : List ℚ) (i : ℕ) (q : ℚ) (h : l[i]? = some q) :
    (finCol l)[i]? = some (some (F.fin q)) := by
  rw [finCol, List.getElem?_map, h]
  rfl

/-- The first true-range cell of `add_atr`: the shifted previous close is
null, `max_horizontal` ignores the two null operands, so the value is
`high[0] - low[0]` rather than null. -/
theorem trueRange_getElem_zero (hq lq cq : List ℚ) (a b : ℚ)
    (hcne : cq ≠ []) (ha : hq[0]? = some a) (hb : lq[0]? = some b) :
    (trueRange (finCol hq) (finCol lq) (finCol cq))[0]? = some (some (F.fin (a - b))) := by
  unfold trueRange
  have h1 : (colMap2 F.sub (finCol hq) (finCol lq))[0]? = some (some (F.fin (a - b))) := by
    rw [colMap2_getElem? F.sub _ _ 0 _ _ (finCol_getElem hq 0 a ha) (finCol_getElem lq 0 b hb)]
    simp
  have hsz : (shiftOne (finCol cq))[0]? = some none :=
    shiftOne_getElem_zero _ (by cases cq with | nil => exact absurd rfl hcne | cons q l => simp [finCol])
  have h2 : ((colMap2 F.sub (finCol hq) (shiftOne (finCol cq))).map (Option.map F.abs))[0]?
      = some none := by
    rw [List.getElem?_map,
      colMap2_getElem? F.sub _ _ 0 _ _ (finCol_getElem hq 0 a ha) hsz]
    rfl
  have h3 : ((colMap2 F.sub (finCol lq) (shiftOne (finCol cq))).map (Option.map F.abs))[0]?
      = some none := by
    rw [List.getElem?_map,
      colMap2_getElem? F.sub _ _ 0 _ _ (finCol_getElem lq 0 b hb) hsz]
    rfl
  rw [maxHorizontal3_getElem _ _ _ 0 _ _ _ h1 h2 h3]
  rfl

/-- The true-range cells of `add_atr` past the first index: the maximum of
`high - low`, `|high - prev close|` and `|low - prev close|`. -/
theorem trueRange_getElem_succ (hq lq cq : List ℚ) (t : ℕ) (a b c' : ℚ)
    (hlen2 : cq.length = hq.length)
    (ha : hq[t + 1]? = some a) (hb : lq[t + 1]? = some b) (hc : cq[t]? = some c') :
    (trueRange (finCol hq) (finCol lq) (finCol cq))[t + 1]? =
      some (some (F.fin (max (max (a - b) |a - c'|) |b - c'|))) := by
  unfold trueRange
  have hts : t + 1 < cq.length := by
    have := lt_of_getElem?_some hq (t + 1) a ha
    omega
  have hsz : (shiftOne (finCol cq))[t + 1]? = some (some (F.fin c')) := by
    rw [shiftOne_getElem_succ _ t (by simpa using hts)]
    exact finCol_getElem cq t c' hc
  have h1 : (colMap2 F.sub (finCol hq) (finCol lq))[t + 1]? = some (some (F.fin (a - b))) := by
    rw [colMap2_getElem? F.sub _ _ (t + 1) _ _ (finCol_getElem hq _ a ha)
      (finCol_getElem lq _ b hb)]
    simp
  have h2 : ((colMap2 F.sub (finCol hq) (shiftOne (finCol cq))).map (Option.map F.abs))[t + 1]?
      = some (some (F.fin |a - c'|)) := by
    rw [List.getElem?_map, colMap2_getElem? F.sub _ _ (t + 1) _ _ (finCol_getElem hq _ a ha) hsz]
    simp
  have h3 : ((colMap2 F.sub (finCol lq) (shiftOne (finCol cq))).map (Option.map F.abs))[t + 1]?
      = some (some (F.fin |b - c'|)) := by
    rw [List.getElem?_map, colMap2_getElem? F.sub _ _ (t + 1) _ _ (finCol_getElem lq _ b hb) hsz]
    simp
  rw [maxHorizontal3_getElem _ _ _ (t + 1) _ _ _ h1 h2 h3]
  simp

/-- C5 counterexample: on a single bar with high 3, low 1, close 2 and
period 1, the produced `atr_1` column is `[2]` (the true range at index 0 is
`high - low` because `max_horizontal` ignores the null shifted-close terms),
whereas the claim's `true_range[0] = None` would make the rolling mean of the
true range null at index 0. -/
theorem c5_counterexample :
    addAtr oneBarHLC 1 =
      Except.ok (oneBarHLC.withColumn (atrName 1)
        (rollingMean 1 (trueRange (finCol [3]) (finCol [1]) (finCol [2])))) ∧
    (trueRange (finCol [3]) (finCol [1]) (finCol [2]))[0]? = some (some (F.fin 2)) ∧
    (rollingMean 1 (trueRange (finCol [3]) (finCol [1]) (finCol [2])))[0]?
      = some (some (F.fin 2)) ∧
    rollingMean 1 [(none : Cell)] = [none] ∧
    (some (some (F.fin 2)) : Option Cell) ≠ some none := by
  refine ⟨rfl, ?_, ?_, ?_, by simp⟩ <;>
    norm_num [trueRange, maxHorizontal3, colMap2, shiftOne, finCol, rollingMean,
      rollingMeanCell, windowAt, cellsSum, F.maxT, F.leT, F.abs, F.div_fin,
      List.range_succ, id_eq, List.filterMap_cons, abs_of_nonneg, abs_of_nonpos]

/-- C5 (amended): `true_range[0]` is `high[0] - low[0]` (the `max_horizontal`
of the one non-null operand; the previous-close terms are null at index 0 and
are ignored, a fixed fallback rather than `None`); for `t > 0` the true range
is the maximum of `|high-low|`, `|high-prev close|`, `|low-prev close|`
(with `high - low = |high - low|` under the data-model constraint
`low ≤ high`); and `atr_{p}` is the rolling mean of this true-range series. -/
theorem c5_atr_true_range (df : Frame) (hq lq cq : List ℚ) (p : Int)
    (hh : df.getCol? "high" = some (finCol hq)) (hl : df.getCol? "low" = some (finCol lq))
    (hc : df.getCol? "close" = some (finCol cq)) (hp : 1 ≤ p)
    (hlen1 : lq.length = hq.length) (hlen2 : cq.length = hq.length)
    (hord : ∀ t : ℕ, t < hq.length → lq.getD t 0 ≤ hq.getD t 0) :
    addAtr df p =
      Except.ok (df.withColumn (atrName p)
        (rollingMean p.toNat (trueRange (finCol hq) (finCol lq) (finCol cq)))) ∧
    (∀ a b : ℚ, hq[0]? = some a → lq[0]? = some b →
      (trueRange (finCol hq) (finCol lq) (finCol cq))[0]? = some (some (F.fin (a - b)))) ∧
    (∀ (t : ℕ) (a b c' : ℚ), hq[t + 1]? = some a → lq[t + 1]? = some b → cq[t]? = some c' →
      (trueRange (finCol hq) (finCol lq) (finCol cq))[t + 1]? =
        some (some (F.fin (max (max |a - b| |a - c'|) |b - c'|)))) := by
  refine ⟨?_, ?_, ?_⟩
  · unfold addAtr
    rw [if_neg (by omega), hh, hl, hc]
  · intro a b ha hb
    have hcne : cq ≠ [] := by
      have h0 := lt_of_getElem?_some hq 0 a ha
      intro hnil
      rw [hnil] at hlen2
      simp at hlen2
      omega
    exact trueRange_getElem_zero hq lq cq a b hcne ha hb
  · intro t a b c' ha hb hc'
    have habs : |a - b| = a - b := by
      have h1 := hord (t + 1) (lt_of_getElem?_some hq (t + 1) a ha)
      have h2 : hq.getD (t + 1) 0 = a := by
        rw [List.getD_eq_getElem?_getD, ha]
        rfl
      have h3 : lq.getD (t + 1) 0 = b := by
        rw [List.getD_eq_getElem?_getD, hb]
        rfl
      rw [h2, h3] at h1
      exact abs_of_nonneg (by linarith)
    rw [trueRange_getElem_succ hq lq cq t a b c' hlen2 ha hb hc', habs]

/-- C5 witness: concrete instance of `c5_atr_true_range` on the one-bar
frame. -/
theorem c5_atr_true_range_witness :
    addAtr oneBarHLC 1 =
      Except.ok (oneBarHLC.withColumn (atrName 1)
        (rollingMean 1 (trueRange (finCol [3]) (finCol [1]) (finCol [2])))) ∧
    (trueRange (finCol [3]) (finCol [1]) (finCol [2]))[0]? = some (some (F.fin (3 - 1))) := by
  refine ⟨(c5_atr_true_range oneBarHLC [3] [1] [2] 1 rfl rfl rfl (by norm_num) (by norm_num)
    (by norm_num) ?_).1, ?_⟩
  · intro t ht
    obtain rfl : t = 0 := by simpa using ht
    norm_num [List.getD_cons_zero]
  · exact (c5_atr_true_range oneBarHLC [3] [1] [2] 1 rfl rfl rfl (by norm_num) (by norm_num)
      (by norm_num)
      (by intro t ht
          obtain rfl : t = 0 := Nat.lt_one_iff.mp (by simpa using ht)
          norm_num [List.getD_cons_zero])).2.1
      3 1 rfl rfl

/-! ### Claim C10 -/

theorem map_finCol (g : F → F) (gq : ℚ → ℚ) (hg : ∀ q, g (F.fin q) = F.fin (gq q))
    (l : List ℚ) : (finCol l).map (Option.map g) = finCol (l.map gq) := by
  simp [finCol, List.map_map, Function.comp_def, hg]

theorem typicalPrice_finCol (hq lq cq : List ℚ) :
    typicalPrice (finCol hq) (finCol lq) (finCol cq) =
      finCol (((List.zipWith (fun a b => a + b) hq lq).zipWith (fun a b => a + b) cq).map
        (fun q => q / 3)) := by
  unfold typicalPrice
  rw [colMap2_finCol F.add (fun a b => a + b) (fun a b => F.add_fin a b) hq lq,
    colMap2_finCol F.add (fun a b => a + b) (fun a b => F.add_fin a b) _ cq,
    map_finCol _ (fun q => q / 3) (fun q => F.div_fin q 3 (by norm_num)) _]

theorem zipWith_mul_replicate (X : List ℚ) :
    ∀ (n : ℕ) (v0 : ℚ), X.length = n →
      List.zipWith (fun a b => a * b) X (List.replicate n v0) = X.map (fun a => a * v0) := by
  induction X with
  | nil => intro n v0 h; simp
  | cons x xs ih =>
    intro n v0 h
    cases n with
    | zero => simp at h
    | succ m => simp [List.replicate_succ, ih m v0 (by simpa using h)]

theorem sum_map_mul (X : List ℚ) (v0 : ℚ) :
    (X.map (fun a => a * v0)).sum = X.sum * v0 := by
  induction X with
  | nil => simp
  | cons x xs ih => simp [ih]; ring

/-- C10 (confirmed): the `vwap` column of `add_vwap` is, at every index `t`,
the cumulative sum of `typical_price * volume` over `0..t` divided by the
cumulative sum of `volume` over `0..t`, with
`typical_price = (high + low + close) / 3`; under a constant positive volume
it collapses to the arithmetic mean of the typical prices so far. -/
theorem c10_vwap (df : Frame) (hq lq cq vq : List ℚ) (n : ℕ)
    (hh : df.getCol? "high" = some (finCol hq)) (hl : df.getCol? "low" = some (finCol lq))
    (hc : df.getCol? "close" = some (finCol cq)) (hv : df.getCol? "volume" = some (finCol vq))
    (hlh : hq.length = n) (hll : lq.length = n) (hlc : cq.length = n) (hlv : vq.length = n) :
    addVwap df = Except.ok (df.withColumn "vwap"
      (vwapColumn (finCol hq) (finCol lq) (finCol cq) (finCol vq))) ∧
    (∀ t : ℕ, t < n →
      (vwapColumn (finCol hq) (finCol lq) (finCol cq) (finCol vq))[t]? =
        some (some (F.div
          (F.fin (((List.zipWith (fun a b => a * b)
            (((List.zipWith (fun a b => a + b) hq lq).zipWith (fun a b => a + b) cq).map
              (fun q => q / 3)) vq).take (t + 1)).sum))
          (F.fin ((vq.take (t + 1)).sum))))) ∧
    (∀ v0 : ℚ, 0 < v0 → vq = List.replicate n v0 → ∀ t : ℕ, t < n →
      (vwapColumn (finCol hq) (finCol lq) (finCol cq) (finCol vq))[t]? =
        some (some (F.fin
          (((((List.zipWith (fun a b => a + b) hq lq).zipWith (fun a b => a + b) cq).map
            (fun q => q / 3)).take (t + 1)).sum / ((t : ℚ) + 1))))) := by
  have htp := typicalPrice_finCol hq lq cq
  have htplen :
      (((List.zipWith (fun a b => a + b) hq lq).zipWith (fun a b => a + b) cq).map
        (fun q => q / 3)).length = n := by
    simp [hlh, hll, hlc]
  have hgen : ∀ t : ℕ, t < n →
      (vwapColumn (finCol hq) (finCol lq) (finCol cq) (finCol vq))[t]? =
        some (some (F.div
          (F.fin (((List.zipWith (fun a b => a * b)
            (((List.zipWith (fun a b => a + b) hq lq).zipWith (fun a b => a + b) cq).map
              (fun q => q / 3)) vq).take (t + 1)).sum))
          (F.fin ((vq.take (t + 1)).sum)))) := by
    intro t ht
    unfold vwapColumn
    rw [htp, colMap2_finCol F.mul (fun a b => a * b) (fun a b => F.mul_fin a b) _ vq]
    rw [colMap2_getElem? F.div _ _ t _ _
      (cumSum_finCol_getElem _ t (by simp [htplen, hlv]; omega))
      (cumSum_finCol_getElem vq t (by omega))]
    rfl
  refine ⟨?_, hgen, ?_⟩
  · unfold addVwap
    rw [hh, hl, hc, hv]
  · intro v0 hv0 hrep t ht
    rw [hgen t ht]
    subst hrep
    have hA : ((List.zipWith (fun a b => a * b)
        (((List.zipWith (fun a b => a + b) hq lq).zipWith (fun a b => a + b) cq).map
          (fun q => q / 3)) (List.replicate n v0)).take (t + 1)).sum =
        (((((List.zipWith (fun a b => a + b) hq lq).zipWith (fun a b => a + b) cq).map
          (fun q => q / 3)).take (t + 1)).sum) * v0 := by
      rw [zipWith_mul_replicate _ n v0 htplen, ← List.map_take, sum_map_mul]
    have hB : (((List.replicate n v0).take (t + 1)).sum : ℚ) = ((t : ℚ) + 1) * v0 := by
      rw [List.take_replicate, List.sum_replicate]
      have hmin : min (t + 1) n = t + 1 := by omega
      rw [hmin, nsmul_eq_mul]
      push_cast
      ring
    rw [hA, hB, F.div_fin _ _ (by positivity)]
    rw [mul_div_mul_right _ _ (ne_of_gt hv0)]

/-- C10 witness: concrete instance of `c10_vwap` on the one-bar frame with
volume 7. -/
theorem c10_vwap_witness :
    addVwap ohlcvFrame1 = Except.ok (ohlcvFrame1.withColumn "vwap"
      (vwapColumn (finCol [2]) (finCol [0]) (finCol [1]) (finCol [7]))) ∧
    (vwapColumn (finCol [2]) (finCol [0]) (finCol [1]) (finCol [7]))[0]? =
      some (some (F.fin 1)) := by
  refine ⟨(c10_vwap ohlcvFrame1 [2] [0] [1] [7] 1 rfl rfl rfl rfl rfl rfl rfl rfl).1, ?_⟩
  have h := (c10_vwap ohlcvFrame1 [2] [0] [1] [7] 1 rfl rfl rfl rfl rfl rfl rfl rfl).2.2 7
    (by norm_num) (by simp) 0 (by norm_num)
  norm_num at h
  exact h

/-! ### Claim C8 -/

/-- C8 counterexample: `add_macd` does not succeed for every choice of
periods.  With `short = long = 12` the two EMA expressions in one
`with_columns` call share the output name `ema_12` and polars raises a
duplicate-column error; with `signal = 0` the span validation raises; in both
cases no columns are emitted. -/
theorem c8_counterexample :
    addMacd twoBarClose 12 12 9 = Except.error "duplicate column name" ∧
    addMacd twoBarClose 12 26 0 = Except.error "require span >= 1" := by
  constructor <;> rfl

/-- C8 (amended): for every input frame and all periods with `short ≥ 1`,
`long ≥ 1`, `signal ≥ 1` and `short ≠ long`, `add_macd` succeeds and emits
columns named `macd_{short}_{long}`, `macd_signal_{signal}` and
`macd_histogram`, where the histogram column is exactly the elementwise
subtraction of the stored macd and signal columns (the same column values,
subtracted bitwise — exact in the model). -/
theorem c8_macd (df : Frame) (cl : Column) (s l g : Int)
    (hc : df.getCol? "close" = some cl) (hs : 1 ≤ s) (hl : 1 ≤ l) (hg : 1 ≤ g)
    (hne : s ≠ l) :
    addMacd df s l g = Except.ok (macdFrame df s l g cl) ∧
    (macdFrame df s l g cl).getCol? (macdColName s l) = some (macdColumn s l cl) ∧
    (macdFrame df s l g cl).getCol? (macdSignalName g) = some (macdSignalColumn g s l cl) ∧
    (macdFrame df s l g cl).getCol? "macd_histogram" =
      some (colMap2 F.sub (macdColumn s l cl) (macdSignalColumn g s l cl)) := by
  have hemaS : emaName s ≠ emaName l := emaName_inj s l hs hl hne
  refine ⟨?_, ?_, ?_, ?_⟩
  · unfold addMacd
    rw [if_neg (by omega), if_neg (by omega), hc]
    have h1 : df.withColumns
        [(emaName s, ewmMean s.toNat cl), (emaName l, ewmMean l.toNat cl)] =
        Except.ok ((df.withColumn (emaName s) (ewmMean s.toNat cl)).withColumn (emaName l)
          (ewmMean l.toNat cl)) := by
      rw [Frame.withColumns, if_pos (by simp [hemaS])]
      rfl
    dsimp only
    rw [h1]
    show (Except.ok _ >>= _) = _
    rw [exBind_ok]
    have hgS : ((df.withColumn (emaName s) (ewmMean s.toNat cl)).withColumn (emaName l)
        (ewmMean l.toNat cl)).getCol? (emaName s) = some (ewmMean s.toNat cl) := by
      rw [getCol?_withColumn_ne _ _ _ _ hemaS]
      exact getCol?_withColumn_self _ _ _
    have hgL : ((df.withColumn (emaName s) (ewmMean s.toNat cl)).withColumn (emaName l)
        (ewmMean l.toNat cl)).getCol? (emaName l) = some (ewmMean l.toNat cl) :=
      getCol?_withColumn_self _ _ _
    rw [hgS, hgL]
    dsimp only
    rw [if_neg (by omega), getCol?_withColumn_self]
    dsimp only
    rw [getCol?_withColumn_ne _ _ _ _ (macdColName_ne_signal s l g hs),
      getCol?_withColumn_self, getCol?_withColumn_self]
    dsimp only
    rfl
  · rw [macdFrame, getCol?_withColumn_ne _ _ _ _ (macdColName_ne_hist s l hs),
      getCol?_withColumn_ne _ _ _ _ (macdColName_ne_signal s l g hs),
      getCol?_withColumn_self]
  · rw [macdFrame, getCol?_withColumn_ne _ _ _ _ (macdSignalName_ne_hist g),
      getCol?_withColumn_self]
  · rw [macdFrame, getCol?_withColumn_self]

/-- C8 witness: concrete instance of `c8_macd` with periods 1, 2, 1. -/
theorem c8_macd_witness :
    addMacd twoBarClose 1 2 1 = Except.ok (macdFrame twoBarClose 1 2 1 (finCol [0, 1])) ∧
    (macdFrame twoBarClose 1 2 1 (finCol [0, 1])).getCol? "macd_histogram" =
      some (colMap2 F.sub (macdColumn 1 2 (finCol [0, 1]))
        (macdSignalColumn 1 1 2 (finCol [0, 1]))) :=
  ⟨(c8_macd twoBarClose (finCol [0, 1]) 1 2 1 rfl (by norm_num) (by norm_num) (by norm_num)
      (by norm_num)).1,
   (c8_macd twoBarClose (finCol [0, 1]) 1 2 1 rfl (by norm_num) (by norm_num) (by norm_num)
      (by norm_num)).2.2.2⟩

/-! ### Claim C6 -/

theorem addSma_close_missing (df : Frame) (p : Int) (hp : 1 ≤ p)
    (hc : df.getCol? "close" = none) : addSma df p = Except.error "column not found: close" := by
  unfold addSma
  rw [if_neg (by omega), hc]

theorem addEma_close_missing (df : Frame) (p : Int) (hp : 1 ≤ p)
    (hc : df.getCol? "close" = none) : addEma df p = Except.error "column not found: close" := by
  unfold addEma
  rw [if_neg (by omega), hc]

theorem addRsi_close_missing (df : Frame) (p : Int) (hp : 1 ≤ p)
    (hc : df.getCol? "close" = none) : addRsi df p = Except.error "column not found: close" := by
  unfold addRsi
  rw [if_neg (by omega), hc]

/-- C6 counterexample: `add_all_indicators` performs no schema validation.
A frame missing the required `date` column (never read by any indicator)
is processed fully successfully; a frame missing only `volume` has its SMA
computed successfully before the pipeline fails at the VWAP step, whose error
names only `volume`. -/
theorem c6_counterexample :
    (addAllIndicators id noDateFrame [1] [1] 1 1 2 1 1 2 1).isOk = true ∧
    addSma noVolumeFrame 1 =
      Except.ok (noVolumeFrame.withColumn (smaName 1) (rollingMean 1 (finCol [1]))) ∧
    addAllIndicators id noVolumeFrame [1] [1] 1 1 2 1 1 2 1 =
      Except.error "column not found: volume" := by
  refine ⟨rfl, rfl, rfl⟩

/-- C6 (amended): there is no upfront schema check.  When the `close` column
is missing (and the periods are valid), the first pipeline step that reads it
raises `column not found: close` and the whole call returns that error — the
caller receives no partially augmented frame (full failure), but steps not
reading a missing column do run before the error, and a frame missing only
unread required columns (`date`, `open`) succeeds. -/
theorem c6_schema_error (sq : ℚ → ℚ) (df : Frame) (sps eps : List Int)
    (rp ms ml sg bp : Int) (k : ℚ) (ap : Int)
    (hclose : df.getCol? "close" = none)
    (hsp : ∀ p ∈ sps, 1 ≤ p) (hep : ∀ p ∈ eps, 1 ≤ p)
    (hrp : 1 ≤ rp) :
    addAllIndicators sq df sps eps rp ms ml sg bp k ap =
      Except.error "column not found: close" := by
  unfold addAllIndicators
  cases sps with
  | cons p ps =>
    rw [List.foldlM_cons, addSma_close_missing df p (hsp p (by simp)) hclose]
    rfl
  | nil =>
    rw [List.foldlM_nil]
    show (Except.ok df >>= _) = _
    rw [exBind_ok]
    cases eps with
    | cons p ps =>
      rw [List.foldlM_cons, addEma_close_missing df p (hep p (by simp)) hclose]
      rfl
    | nil =>
      rw [List.foldlM_nil]
      show (Except.ok df >>= _) = _
      rw [exBind_ok]
      rw [addRsi_close_missing df rp hrp hclose]
      rfl

/-- C6 witness: concrete instance of `c6_schema_error` on a frame holding
only a `date` column. -/
theorem c6_schema_error_witness :
    dateOnlyFrame.getCol? "close" = none ∧
    addAllIndicators id dateOnlyFrame [1] [1] 1 1 2 1 1 2 1 =
      Except.error "column not found: close" :=
  ⟨rfl, c6_schema_error id dateOnlyFrame [1] [1] 1 1 2 1 1 (2 : ℚ) 1 rfl
    (by intro p hp; simp at hp; omega) (by intro p hp; simp at hp; omega)
    (by norm_num)⟩

/-! ### Claim C7 -/

theorem exBind_ok_inv {α β : Type} (x : Except String α) (f : α → Except String β) (r : β)
    (h : (x >>= f) = .ok r) : ∃ a, x = .ok a ∧ f a = .ok r := by
  cases x with
  | error e => rw [exBind_err] at h; exact Except.noConfusion h
  | ok a =>
    rw [exBind_ok] at h
    exact ⟨a, rfl, h⟩

theorem addSma_ok_period (df r : Frame) (p : Int) (h : addSma df p = .ok r) : 1 ≤ p := by
  by_contra hcon
  unfold addSma at h
  rw [if_pos (by omega)] at h
  exact Except.noConfusion h

theorem addEma_ok_period (df r : Frame) (p : Int) (h : addEma df p = .ok r) : 1 ≤ p := by
  by_contra hcon
  unfold addEma at h
  rw [if_pos (by omega)] at h
  exact Except.noConfusion h

theorem addRsi_ok_period (df r : Frame) (p : Int) (h : addRsi df p = .ok r) : 1 ≤ p := by
  by_contra hcon
  unfold addRsi at h
  rw [if_pos (by omega)] at h
  exact Except.noConfusion h

theorem addBollinger_ok_period (sq : ℚ → ℚ) (df r : Frame) (p : Int) (k : ℚ)
    (h : addBollingerBands sq df p k = .ok r) : 1 ≤ p := by
  by_contra hcon
  unfold addBollingerBands at h
  rw [if_pos (by omega)] at h
  exact Except.noConfusion h

theorem addAtr_ok_period (df r : Frame) (p : Int) (h : addAtr df p = .ok r) : 1 ≤ p := by
  by_contra hcon
  unfold addAtr at h
  rw [if_pos (by omega)] at h
  exact Except.noConfusion h

theorem addMacd_ok_periods (df r : Frame) (s l g : Int) (h : addMacd df s l g = .ok r) :
    1 ≤ s ∧ 1 ≤ l ∧ 1 ≤ g := by
  unfold addMacd at h
  by_cases h1 : s < 1
  · rw [if_pos h1] at h
    exact Except.noConfusion h
  rw [if_neg h1] at h
  by_cases h2 : l < 1
  · rw [if_pos h2] at h
    exact Except.noConfusion h
  rw [if_neg h2] at h
  refine ⟨by omega, by omega, ?_⟩
  by_contra h3
  cases hcl : df.getCol? "close" with
  | none =>
    rw [hcl] at h
    exact Except.noConfusion h
  | some cl =>
    rw [hcl] at h
    dsimp only at h
    obtain ⟨d1, hw, h⟩ := exBind_ok_inv _ _ _ h
    cases hg1 : d1.getCol? (emaName s) with
    | none =>
      rw [hg1] at h
      cases hg2 : d1.getCol? (emaName l) <;> rw [hg2] at h <;> exact Except.noConfusion h
    | some cS =>
      cases hg2 : d1.getCol? (emaName l) with
      | none =>
        rw [hg1, hg2] at h
        exact Except.noConfusion h
      | some cL =>
        rw [hg1, hg2] at h
        dsimp only at h
        rw [if_pos (by omega)] at h
        exact Except.noConfusion h

theorem foldlM_addSma_ok (ps : List Int) :
    ∀ df r : Frame, List.foldlM (fun d p => addSma d p) df ps = .ok r → ∀ p ∈ ps, 1 ≤ p := by
  induction ps with
  | nil => intro df r h p hp; simp at hp
  | cons q qs ih =>
    intro df r h p hp
    rw [List.foldlM_cons] at h
    obtain ⟨d1, hq, h⟩ := exBind_ok_inv _ _ _ h
    rcases List.mem_cons.mp hp with rfl | hmem
    · exact addSma_ok_period df d1 p hq
    · exact ih d1 r h p hmem

theorem foldlM_addEma_ok (ps : List Int) :
    ∀ df r : Frame, List.foldlM (fun d p => addEma d p) df ps = .ok r → ∀ p ∈ ps, 1 ≤ p := by
  induction ps with
  | nil => intro df r h p hp; simp at hp
  | cons q qs ih =>
    intro df r h p hp
    rw [List.foldlM_cons] at h
    obtain ⟨d1, hq, h⟩ := exBind_ok_inv _ _ _ h
    rcases List.mem_cons.mp hp with rfl | hmem
    · exact addEma_ok_period df d1 p hq
    · exact ih d1 r h p hmem

theorem addAll_ok_inv (sq : ℚ → ℚ) (df : Frame) (sps eps : List Int)
    (rp ms ml sg bp : Int) (k : ℚ) (ap : Int) (r : Frame)
    (h : addAllIndicators sq df sps eps rp ms ml sg bp k ap = .ok r) :
    (∀ p ∈ sps, 1 ≤ p) ∧ (∀ p ∈ eps, 1 ≤ p) ∧ 1 ≤ rp ∧ 1 ≤ ms ∧ 1 ≤ ml ∧ 1 ≤ sg ∧
      1 ≤ bp ∧ 1 ≤ ap := by
  unfold addAllIndicators at h
  obtain ⟨d1, h1, h⟩ := exBind_ok_inv _ _ _ h
  obtain ⟨d2, h2, h⟩ := exBind_ok_inv _ _ _ h
  obtain ⟨d3, h3, h⟩ := exBind_ok_inv _ _ _ h
  obtain ⟨d4, h4, h⟩ := exBind_ok_inv _ _ _ h
  obtain ⟨d5, h5, h⟩ := exBind_ok_inv _ _ _ h
  obtain ⟨d6, h6, h⟩ := exBind_ok_inv _ _ _ h
  obtain ⟨hm1, hm2, hm3⟩ := addMacd_ok_periods d3 d4 ms ml sg h4
  exact ⟨foldlM_addSma_ok sps df d1 h1, foldlM_addEma_ok eps d1 d2 h2,
    addRsi_ok_period d2 d3 rp h3, hm1, hm2, hm3,
    addBollinger_ok_period sq d4 d5 bp k h5, addAtr_ok_period d5 d6 ap h6⟩

/-- C7 counterexample: the original claim fails for non-integer periods on
the EMA path.  `add_ema(df, 2.5)` is not rejected: polars `ewm_mean` takes
`span` as a float and checks only `span >= 1`, so the call succeeds, emits an
`ema_2.5` column, and computes with `alpha = 2/3.5 = 4/7` — on close `[0, 1]`
its second value is `7/10`, distinct from the `3/4` and `2/3` that the
neighbouring integer spans 2 and 3 produce, so the parameter was not clamped
either. -/
theorem c7_counterexample :
    addEmaSpan twoBarClose (5 / 2) =
      Except.ok (twoBarClose.withColumn ("ema_" ++ ratFloatStr (5 / 2))
        (ewmMeanSpan (5 / 2) (finCol [0, 1]))) ∧
    ratFloatStr (5 / 2) = "2.5" ∧
    (ewmMeanSpan (5 / 2) (finCol [0, 1]))[1]? = some (some (F.fin (7 / 10))) ∧
    (ewmMean 2 (finCol [0, 1]))[1]? = some (some (F.fin (3 / 4))) ∧
    (ewmMean 3 (finCol [0, 1]))[1]? = some (some (F.fin (2 / 3))) := by
  refine ⟨?_, ?_, ?_, ?_, ?_⟩
  · unfold addEmaSpan
    rw [if_neg (by norm_num : ¬ (5 / 2 : ℚ) < 1)]
    rfl
  · have h : (5 / 2 : ℚ) = mkRat 5 2 := by
      rw [Rat.mkRat_eq_divInt, Rat.divInt_eq_div]
      norm_num
    rw [h]
    rfl
  · simp only [ewmMeanSpan, finCol, List.map_cons, List.map_nil, ewmGo]
    norm_num [F.div_fin]
  · simp only [ewmMean, finCol, List.map_cons, List.map_nil, ewmGo]
    norm_num [F.div_fin]
  · simp only [ewmMean, finCol, List.map_cons, List.map_nil, ewmGo]
    norm_num [F.div_fin]

/-- C7 (as amended): every non-positive window or period parameter is
rejected with a raised error before the indicator using it is computed, never
clamped: each single-indicator operation returns an error for `period < 1`
(polars validates `window_size`/`span` positivity), `add_all_indicators`
fails whenever any of its period parameters is non-positive, and a float span
below 1 passed to the EMA path is likewise rejected by the span check.  A
non-integer float span `>= 1`, however, is silently accepted: `ewm_mean`
takes `span` as a float, so `add_ema` succeeds and computes with
`alpha = 2/(span+1)`.  (Non-integer `window_size` values for the
rolling-window operations are rejected by polars with a type error, a
Python-typing fact outside the rational embedding.) -/
theorem c7_param_validation :
    (∀ (df : Frame) (p : Int), p < 1 →
      addSma df p = Except.error "window_size must be a positive integer") ∧
    (∀ (df : Frame) (p : Int), p < 1 → addEma df p = Except.error "require span >= 1") ∧
    (∀ (df : Frame) (p : Int), p < 1 →
      addRsi df p = Except.error "window_size must be a positive integer") ∧
    (∀ (sq : ℚ → ℚ) (df : Frame) (p : Int) (k : ℚ), p < 1 →
      addBollingerBands sq df p k = Except.error "window_size must be a positive integer") ∧
    (∀ (df : Frame) (p : Int), p < 1 →
      addAtr df p = Except.error "window_size must be a positive integer") ∧
    (∀ (df : Frame) (s l g : Int), s < 1 ∨ l < 1 ∨ g < 1 → (addMacd df s l g).isOk = false) ∧
    (∀ (sq : ℚ → ℚ) (df : Frame) (sps eps : List Int) (rp ms ml sg bp : Int) (k : ℚ)
      (ap : Int),
      ((∃ p ∈ sps, p < 1) ∨ (∃ p ∈ eps, p < 1) ∨ rp < 1 ∨ ms < 1 ∨ ml < 1 ∨ sg < 1 ∨
        bp < 1 ∨ ap < 1) →
      (addAllIndicators sq df sps eps rp ms ml sg bp k ap).isOk = false) ∧
    (∀ (df : Frame) (q : ℚ), q < 1 → addEmaSpan df q = Except.error "require span >= 1") ∧
    (∀ (df : Frame) (co : Column) (q : ℚ), 1 ≤ q → df.getCol? "close" = some co →
      addEmaSpan df q =
        Except.ok (df.withColumn ("ema_" ++ ratFloatStr q) (ewmMeanSpan q co))) := by
  refine ⟨?_, ?_, ?_, ?_, ?_, ?_, ?_, ?_, ?_⟩
  · intro df p hp
    unfold addSma
    rw [if_pos hp]
  · intro df p hp
    unfold addEma
    rw [if_pos hp]
  · intro df p hp
    unfold addRsi
    rw [if_pos hp]
  · intro sq df p k hp
    unfold addBollingerBands
    rw [if_pos hp]
  · intro df p hp
    unfold addAtr
    rw [if_pos hp]
  · intro df s l g hd
    cases hres : addMacd df s l g with
    | error e => rfl
    | ok r =>
      obtain ⟨hs, hl, hg⟩ := addMacd_ok_periods df r s l g hres
      omega
  · intro sq df sps eps rp ms ml sg bp k ap hd
    cases hres : addAllIndicators sq df sps eps rp ms ml sg bp k ap with
    | error e => rfl
    | ok r =>
      obtain ⟨i1, i2, i3, i4, i5, i6, i7, i8⟩ :=
        addAll_ok_inv sq df sps eps rp ms ml sg bp k ap r hres
      rcases hd with ⟨p, hp, hplt⟩ | ⟨p, hp, hplt⟩ | h | h | h | h | h | h
      · exact absurd (i1 p hp) (by omega)
      · exact absurd (i2 p hp) (by omega)
      all_goals omega
  · intro df q hq
    unfold addEmaSpan
    rw [if_pos hq]
  · intro df co q hq hco
    unfold addEmaSpan
    rw [if_neg (not_lt.mpr hq), hco]

/-- C7 witness: concrete instances of `c7_param_validation`, with period 0
for the rejections, float span 1/2 for the span check and float span 5/2 for
the silent acceptance. -/
theorem c7_param_validation_witness :
    addSma ohlcvFrame1 0 = Except.error "window_size must be a positive integer" ∧
    addEma ohlcvFrame1 0 = Except.error "require span >= 1" ∧
    addRsi ohlcvFrame1 0 = Except.error "window_size must be a positive integer" ∧
    addBollingerBands id ohlcvFrame1 0 2 =
      Except.error "window_size must be a positive integer" ∧
    addAtr ohlcvFrame1 0 = Except.error "window_size must be a positive integer" ∧
    (addMacd ohlcvFrame1 12 26 0).isOk = false ∧
    (addAllIndicators id ohlcvFrame1 [1] [1] 0 1 2 1 1 2 1).isOk = false ∧
    addEmaSpan ohlcvFrame1 (1 / 2) = Except.error "require span >= 1" ∧
    addEmaSpan ohlcvFrame1 (5 / 2) =
      Except.ok (ohlcvFrame1.withColumn ("ema_" ++ ratFloatStr (5 / 2))
        (ewmMeanSpan (5 / 2) (finCol [1]))) :=
  ⟨c7_param_validation.1 ohlcvFrame1 0 (by norm_num),
   c7_param_validation.2.1 ohlcvFrame1 0 (by norm_num),
   c7_param_validation.2.2.1 ohlcvFrame1 0 (by norm_num),
   c7_param_validation.2.2.2.1 id ohlcvFrame1 0 2 (by norm_num),
   c7_param_validation.2.2.2.2.1 ohlcvFrame1 0 (by norm_num),
   c7_param_validation.2.2.2.2.2.1 ohlcvFrame1 12 26 0 (by norm_num),
   c7_param_validation.2.2.2.2.2.2.1 id ohlcvFrame1 [1] [1] 0 1 2 1 1 2 1
     (by right; right; norm_num),
   c7_param_validation.2.2.2.2.2.2.2.1 ohlcvFrame1 (1 / 2) (by norm_num),
   c7_param_validation.2.2.2.2.2.2.2.2 ohlcvFrame1 (finCol [1]) (5 / 2) (by norm_num)
     (by decide)⟩

/-! ### Claim C9 -/

theorem preserve_one (df : Frame) (n : String) (col : Column) (hwf : df.wf)
    (hlen : col.length = df.height) :
    (df.withColumn n col).wf ∧ (df.withColumn n col).height = df.height ∧
    ∀ nm, nm ≠ n → (df.withColumn n col).getCol? nm = df.getCol? nm :=
  ⟨wf_withColumn df n col hwf hlen, height_withColumn df n col hlen,
   fun nm h => getCol?_withColumn_ne df n nm col h⟩

theorem addSma_preserves (df r : Frame) (p : Int) (hwf : df.wf) (h : addSma df p = .ok r) :
    r.wf ∧ r.height = df.height ∧ ∀ nm, nm ≠ smaName p → r.getCol? nm = df.getCol? nm := by
  unfold addSma at h
  by_cases hp : p < 1
  · rw [if_pos hp] at h
    exact Except.noConfusion h
  rw [if_neg hp] at h
  cases hcl : df.getCol? "close" with
  | none =>
    rw [hcl] at h
    exact Except.noConfusion h
  | some cl =>
    rw [hcl] at h
    have hr : df.withColumn (smaName p) (rollingMean p.toNat cl) = r := by
      injection h
    have hlen : cl.length = df.height := getCol?_length df "close" cl hwf hcl
    rw [← hr]
    exact preserve_one df _ _ hwf (by simp [hlen])

theorem addEma_preserves (df r : Frame) (p : Int) (hwf : df.wf) (h : addEma df p = .ok r) :
    r.wf ∧ r.height = df.height ∧ ∀ nm, nm ≠ emaName p → r.getCol? nm = df.getCol? nm := by
  unfold addEma at h
  by_cases hp : p < 1
  · rw [if_pos hp] at h
    exact Except.noConfusion h
  rw [if_neg hp] at h
  cases hcl : df.getCol? "close" with
  | none =>
    rw [hcl] at h
    exact Except.noConfusion h
  | some cl =>
    rw [hcl] at h
    have hr : df.withColumn (emaName p) (ewmMean p.toNat cl) = r := by
      injection h
    have hlen : cl.length = df.height := getCol?_length df "close" cl hwf hcl
    rw [← hr]
    exact preserve_one df _ _ hwf (by simp [hlen])

theorem addRsi_preserves (df r : Frame) (p : Int) (hwf : df.wf) (h : addRsi df p = .ok r) :
    r.wf ∧ r.height = df.height ∧ ∀ nm, nm ≠ rsiName p → r.getCol? nm = df.getCol? nm := by
  unfold addRsi at h
  by_cases hp : p < 1
  · rw [if_pos hp] at h
    exact Except.noConfusion h
  rw [if_neg hp] at h
  cases hcl : df.getCol? "close" with
  | none =>
    rw [hcl] at h
    exact Except.noConfusion h
  | some cl =>
    rw [hcl] at h
    have hr : df.withColumn (rsiName p) (rsiColumn p.toNat cl) = r := by
      injection h
    have hlen : cl.length = df.height := getCol?_length df "close" cl hwf hcl
    rw [← hr]
    exact preserve_one df _ _ hwf (by simp [hlen])

theorem addAtr_preserves (df r : Frame) (p : Int) (hwf : df.wf) (h : addAtr df p = .ok r) :
    r.wf ∧ r.height = df.height ∧ ∀ nm, nm ≠ atrName p → r.getCol? nm = df.getCol? nm := by
  unfold addAtr at h
  by_cases hp : p < 1
  · rw [if_pos hp] at h
    exact Except.noConfusion h
  rw [if_neg hp] at h
  cases hh : df.getCol? "high" with
  | none =>
    cases hlo : df.getCol? "low" <;> cases hcl : df.getCol? "close" <;>
      rw [hh, hlo, hcl] at h <;> exact Except.noConfusion h
  | some high =>
    cases hlo : df.getCol? "low" with
    | none =>
      cases hcl : df.getCol? "close" <;> rw [hh, hlo, hcl] at h <;> exact Except.noConfusion h
    | some low =>
      cases hcl : df.getCol? "close" with
      | none =>
        rw [hh, hlo, hcl] at h
        exact Except.noConfusion h
      | some cl =>
        rw [hh, hlo, hcl] at h
        have hr : df.withColumn (atrName p)
            (rollingMean p.toNat (trueRange high low cl)) = r := by
          injection h
        have hlh : high.length = df.height := getCol?_length df "high" high hwf hh
        have hll : low.length = df.height := getCol?_length df "low" low hwf hlo
        have hlc : cl.length = df.height := getCol?_length df "close" cl hwf hcl
        rw [← hr]
        exact preserve_one df _ _ hwf
          (by rw [rollingMean_length, trueRange_length high low cl df.height hlh hll hlc])

theorem addVwap_preserves (df r : Frame) (hwf : df.wf) (h : addVwap df = .ok r) :
    r.wf ∧ r.height = df.height ∧ ∀ nm, nm ≠ "vwap" → r.getCol? nm = df.getCol? nm := by
  unfold addVwap at h
  cases hh : df.getCol? "high" with
  | none =>
    cases hlo : df.getCol? "low" <;> cases hcl : df.getCol? "close" <;>
      cases hv : df.getCol? "volume" <;> rw [hh, hlo, hcl, hv] at h <;>
      exact Except.noConfusion h
  | some high =>
    cases hlo : df.getCol? "low" with
    | none =>
      cases hcl : df.getCol? "close" <;> cases hv : df.getCol? "volume" <;>
        rw [hh, hlo, hcl, hv] at h <;> exact Except.noConfusion h
    | some low =>
      cases hcl : df.getCol? "close" with
      | none =>
        cases hv : df.getCol? "volume" <;> rw [hh, hlo, hcl, hv] at h <;>
          exact Except.noConfusion h
      | some cl =>
        cases hv : df.getCol? "volume" with
        | none =>
          rw [hh, hlo, hcl, hv] at h
          exact Except.noConfusion h
        | some vol =>
          rw [hh, hlo, hcl, hv] at h
          have hr : df.withColumn "vwap" (vwapColumn high low cl vol) = r := by
            injection h
          have hlh : high.length = df.height := getCol?_length df "high" high hwf hh
          have hll : low.length = df.height := getCol?_length df "low" low hwf hlo
          have hlc : cl.length = df.height := getCol?_length df "close" cl hwf hcl
          have hlv : vol.length = df.height := getCol?_length df "volume" vol hwf hv
          rw [← hr]
          exact preserve_one df _ _ hwf
            (vwapColumn_length high low cl vol df.height hlh hll hlc hlv)

theorem addBollinger_preserves (sq : ℚ → ℚ) (df r : Frame) (p : Int) (k : ℚ) (hwf : df.wf)
    (h : addBollingerBands sq df p k = .ok r) :
    r.wf ∧ r.height = df.height ∧
    ∀ nm, nm ≠ bbMiddleName p → nm ≠ bbUpperName p → nm ≠ bbLowerName p → nm ≠ bbStdName p →
      r.getCol? nm = df.getCol? nm := by
  unfold addBollingerBands at h
  by_cases hp : p < 1
  · rw [if_pos hp] at h
    exact Except.noConfusion h
  rw [if_neg hp] at h
  cases hcl : df.getCol? "close" with
  | none =>
    rw [hcl] at h
    exact Except.noConfusion h
  | some cl =>
    rw [hcl] at h
    dsimp only at h
    unfold Frame.withColumns at h
    by_cases hnd : ([(bbMiddleName p, rollingMean p.toNat cl),
        (bbUpperName p, colMap2 F.add (rollingMean p.toNat cl)
          ((rollingStd sq p.toNat cl).map (cellScale k))),
        (bbLowerName p, colMap2 F.sub (rollingMean p.toNat cl)
          ((rollingStd sq p.toNat cl).map (cellScale k))),
        (bbStdName p, rollingStd sq p.toNat cl)].map Prod.fst).Nodup
    swap
    · rw [if_neg hnd] at h
      exact Except.noConfusion h
    rw [if_pos hnd] at h
    have hr : (((df.withColumn (bbMiddleName p) (rollingMean p.toNat cl)).withColumn
        (bbUpperName p) (colMap2 F.add (rollingMean p.toNat cl)
          ((rollingStd sq p.toNat cl).map (cellScale k)))).withColumn
        (bbLowerName p) (colMap2 F.sub (rollingMean p.toNat cl)
          ((rollingStd sq p.toNat cl).map (cellScale k)))).withColumn
        (bbStdName p) (rollingStd sq p.toNat cl) = r := by
      injection h
    have hclen : cl.length = df.height := getCol?_length df "close" cl hwf hcl
    obtain ⟨w1, e1, g1⟩ := preserve_one df (bbMiddleName p) (rollingMean p.toNat cl) hwf
      (by simp [hclen])
    obtain ⟨w2, e2, g2⟩ := preserve_one _ (bbUpperName p) (colMap2 F.add
      (rollingMean p.toNat cl) ((rollingStd sq p.toNat cl).map (cellScale k))) w1
      (by simp [hclen, e1])
    obtain ⟨w3, e3, g3⟩ := preserve_one _ (bbLowerName p) (colMap2 F.sub
      (rollingMean p.toNat cl) ((rollingStd sq p.toNat cl).map (cellScale k))) w2
      (by simp [hclen, e2, e1])
    obtain ⟨w4, e4, g4⟩ := preserve_one _ (bbStdName p) (rollingStd sq p.toNat cl) w3
      (by simp [hclen, e3, e2, e1])
    rw [← hr]
    refine ⟨w4, by rw [e4, e3, e2, e1], ?_⟩
    intro nm n1 n2 n3 n4
    rw [g4 nm n4, g3 nm n3, g2 nm n2, g1 nm n1]

theorem addMacd_preserves (df r : Frame) (s l g : Int) (hwf : df.wf)
    (h : addMacd df s l g = .ok r) :
    r.wf ∧ r.height = df.height ∧
    ∀ nm, nm ≠ emaName s → nm ≠ emaName l → nm ≠ macdColName s l →
      nm ≠ macdSignalName g → nm ≠ "macd_histogram" →
      r.getCol? nm = df.getCol? nm := by
  unfold addMacd at h
  by_cases h1 : s < 1
  · rw [if_pos h1] at h
    exact Except.noConfusion h
  rw [if_neg h1] at h
  by_cases h2 : l < 1
  · rw [if_pos h2] at h
    exact Except.noConfusion h
  rw [if_neg h2] at h
  cases hcl : df.getCol? "close" with
  | none =>
    rw [hcl] at h
    exact Except.noConfusion h
  | some cl =>
    rw [hcl] at h
    dsimp only at h
    obtain ⟨d1, hw1, h⟩ := exBind_ok_inv _ _ _ h
    have hclen : cl.length = df.height := getCol?_length df "close" cl hwf hcl
    unfold Frame.withColumns at hw1
    by_cases hnd : ([(emaName s, ewmMean s.toNat cl),
        (emaName l, ewmMean l.toNat cl)].map Prod.fst).Nodup
    swap
    · rw [if_neg hnd] at hw1
      exact Except.noConfusion hw1
    rw [if_pos hnd] at hw1
    have hd1 : (df.withColumn (emaName s) (ewmMean s.toNat cl)).withColumn (emaName l)
        (ewmMean l.toNat cl) = d1 := by
      injection hw1
    obtain ⟨w1, e1, g1⟩ := preserve_one df (emaName s) (ewmMean s.toNat cl) hwf
      (by simp [hclen])
    obtain ⟨w2, e2, g2⟩ := preserve_one _ (emaName l) (ewmMean l.toNat cl) w1
      (by simp [hclen, e1])
    rw [hd1] at w2 e2 g2
    cases hg1 : d1.getCol? (emaName s) with
    | none =>
      cases hg2 : d1.getCol? (emaName l) <;> rw [hg1, hg2] at h <;> exact Except.noConfusion h
    | some cS =>
      cases hg2 : d1.getCol? (emaName l) with
      | none =>
        rw [hg1, hg2] at h
        exact Except.noConfusion h
      | some cL =>
        rw [hg1, hg2] at h
        dsimp only at h
        by_cases h3 : g < 1
        · rw [if_pos h3] at h
          exact Except.noConfusion h
        rw [if_neg h3] at h
        have hcS : cS.length = df.height := by
          rw [getCol?_length d1 (emaName s) cS w2 hg1, e2, e1]
        have hcL : cL.length = df.height := by
          rw [getCol?_length d1 (emaName l) cL w2 hg2, e2, e1]
        obtain ⟨w3, e3, g3⟩ := preserve_one d1 (macdColName s l) (colMap2 F.sub cS cL) w2
          (by simp [hcS, hcL, e2, e1])
        cases hg3 : (d1.withColumn (macdColName s l) (colMap2 F.sub cS cL)).getCol?
            (macdColName s l) with
        | none =>
          rw [hg3] at h
          exact Except.noConfusion h
        | some cM =>
          rw [hg3] at h
          dsimp only at h
          have hcM : cM.length = df.height := by
            rw [getCol?_length _ (macdColName s l) cM w3 hg3, e3, e2, e1]
          obtain ⟨w4, e4, g4⟩ := preserve_one _ (macdSignalName g) (ewmMean g.toNat cM) w3
            (by simp [hcM, e3, e2, e1])
          cases hg4 : ((d1.withColumn (macdColName s l) (colMap2 F.sub cS cL)).withColumn
              (macdSignalName g) (ewmMean g.toNat cM)).getCol? (macdColName s l) with
          | none =>
            cases hg5 : ((d1.withColumn (macdColName s l) (colMap2 F.sub cS cL)).withColumn
                (macdSignalName g) (ewmMean g.toNat cM)).getCol? (macdSignalName g) <;>
              rw [hg4, hg5] at h <;> exact Except.noConfusion h
          | some cM2 =>
            cases hg5 : ((d1.withColumn (macdColName s l) (colMap2 F.sub cS cL)).withColumn
                (macdSignalName g) (ewmMean g.toNat cM)).getCol? (macdSignalName g) with
            | none =>
              rw [hg4, hg5] at h
              exact Except.noConfusion h
            | some cSig =>
              rw [hg4, hg5] at h
              have hcM2 : cM2.length = df.height := by
                rw [getCol?_length _ (macdColName s l) cM2 w4 hg4, e4, e3, e2, e1]
              have hcSig : cSig.length = df.height := by
                rw [getCol?_length _ (macdSignalName g) cSig w4 hg5, e4, e3, e2, e1]
              obtain ⟨w5, e5, g5⟩ := preserve_one _ "macd_histogram"
                (colMap2 F.sub cM2 cSig) w4 (by simp [hcM2, hcSig, e4, e3, e2, e1])
              have hr : ((d1.withColumn (macdColName s l) (colMap2 F.sub cS cL)).withColumn
                  (macdSignalName g) (ewmMean g.toNat cM)).withColumn "macd_histogram"
                  (colMap2 F.sub cM2 cSig) = r := by
                injection h
              rw [← hr]
              refine ⟨w5, by rw [e5, e4, e3, e2, e1], ?_⟩
              intro nm n1 n2 n3 n4 n5
              rw [g5 nm n5, g4 nm n4, g3 nm n3, g2 nm n2, g1 nm n1]

theorem foldlM_addSma_preserves (ps : List Int) :
    ∀ df r : Frame, df.wf → List.foldlM (fun d p => addSma d p) df ps = .ok r →
      r.wf ∧ r.height = df.height ∧
      ∀ nm, (∀ p ∈ ps, nm ≠ smaName p) → r.getCol? nm = df.getCol? nm := by
  induction ps with
  | nil =>
    intro df r hwf h
    rw [List.foldlM_nil] at h
    have h' : Except.ok df = Except.ok r := h
    have hdr : df = r := by injection h'
    subst hdr
    exact ⟨hwf, rfl, fun nm _ => rfl⟩
  | cons q qs ih =>
    intro df r hwf h
    rw [List.foldlM_cons] at h
    obtain ⟨d1, hq, h⟩ := exBind_ok_inv _ _ _ h
    obtain ⟨w1, e1, g1⟩ := addSma_preserves df d1 q hwf hq
    obtain ⟨w2, e2, g2⟩ := ih d1 r w1 h
    refine ⟨w2, by rw [e2, e1], ?_⟩
    intro nm hnm
    rw [g2 nm (fun p hp => hnm p (List.mem_cons_of_mem _ hp)), g1 nm (hnm q (by simp))]

theorem foldlM_addEma_preserves (ps : List Int) :
    ∀ df r : Frame, df.wf → List.foldlM (fun d p => addEma d p) df ps = .ok r →
      r.wf ∧ r.height = df.height ∧
      ∀ nm, (∀ p ∈ ps, nm ≠ emaName p) → r.getCol? nm = df.getCol? nm := by
  induction ps with
  | nil =>
    intro df r hwf h
    rw [List.foldlM_nil] at h
    have h' : Except.ok df = Except.ok r := h
    have hdr : df = r := by injection h'
    subst hdr
    exact ⟨hwf, rfl, fun nm _ => rfl⟩
  | cons q qs ih =>
    intro df r hwf h
    rw [List.foldlM_cons] at h
    obtain ⟨d1, hq, h⟩ := exBind_ok_inv _ _ _ h
    obtain ⟨w1, e1, g1⟩ := addEma_preserves df d1 q hwf hq
    obtain ⟨w2, e2, g2⟩ := ih d1 r w1 h
    refine ⟨w2, by rw [e2, e1], ?_⟩
    intro nm hnm
    rw [g2 nm (fun p hp => hnm p (List.mem_cons_of_mem _ hp)), g1 nm (hnm q (by simp))]

/-- C9 counterexample: `with_columns` replaces an existing column with the
same name.  On a frame that already carries a column named `sma_1`, `add_sma`
with period 1 overwrites its values, so a pre-existing column of the input is
changed in the output. -/
theorem c9_counterexample :
    addSma collideFrame 1 =
      Except.ok (collideFrame.withColumn (smaName 1) (rollingMean 1 (finCol [1, 2]))) ∧
    collideFrame.getCol? "sma_1" = some (finCol [99, 99]) ∧
    (collideFrame.withColumn (smaName 1) (rollingMean 1 (finCol [1, 2]))).getCol? "sma_1" =
      some (rollingMean 1 (finCol [1, 2])) ∧
    rollingMean 1 (finCol [1, 2]) ≠ finCol [99, 99] := by
  refine ⟨rfl, rfl, ?_, ?_⟩
  · have hn : smaName 1 = "sma_1" := rfl
    rw [← hn]
    exact getCol?_withColumn_self _ _ _
  · intro heq
    have h1 := rollingMean_finCol_getElem 1 le_rfl [1, 2] 0 (by norm_num)
    rw [heq] at h1
    norm_num [finCol] at h1

/-- C9 (amended): every indicator operation and `add_all_indicators`
preserve the row count and well-formedness of the input frame, and every
pre-existing column whose name differs from the emitted indicator-column
names is returned unchanged; emitted columns have the frame's height, so
position `i` of any column stays aligned with row `i` of the input.
A pre-existing column that shares a name with an emitted column is replaced,
not preserved (see the counterexample). -/
theorem c9_row_column_preservation :
    (∀ (df r : Frame) (p : Int), df.wf → addSma df p = Except.ok r →
      r.wf ∧ r.height = df.height ∧
      ∀ nm, nm ≠ smaName p → r.getCol? nm = df.getCol? nm) ∧
    (∀ (df r : Frame) (p : Int), df.wf → addEma df p = Except.ok r →
      r.wf ∧ r.height = df.height ∧
      ∀ nm, nm ≠ emaName p → r.getCol? nm = df.getCol? nm) ∧
    (∀ (df r : Frame) (p : Int), df.wf → addRsi df p = Except.ok r →
      r.wf ∧ r.height = df.height ∧
      ∀ nm, nm ≠ rsiName p → r.getCol? nm = df.getCol? nm) ∧
    (∀ (df r : Frame) (s l g : Int), df.wf → addMacd df s l g = Except.ok r →
      r.wf ∧ r.height = df.height ∧
      ∀ nm, nm ≠ emaName s → nm ≠ emaName l → nm ≠ macdColName s l →
        nm ≠ macdSignalName g → nm ≠ "macd_histogram" →
        r.getCol? nm = df.getCol? nm) ∧
    (∀ (sq : ℚ → ℚ) (df r : Frame) (p : Int) (k : ℚ), df.wf →
      addBollingerBands sq df p k = Except.ok r →
      r.wf ∧ r.height = df.height ∧
      ∀ nm, nm ≠ bbMiddleName p → nm ≠ bbUpperName p → nm ≠ bbLowerName p →
        nm ≠ bbStdName p → r.getCol? nm = df.getCol? nm) ∧
    (∀ (df r : Frame) (p : Int), df.wf → addAtr df p = Except.ok r →
      r.wf ∧ r.height = df.height ∧
      ∀ nm, nm ≠ atrName p → r.getCol? nm = df.getCol? nm) ∧
    (∀ df r : Frame, df.wf → addVwap df = Except.ok r →
      r.wf ∧ r.height = df.height ∧
      ∀ nm, nm ≠ "vwap" → r.getCol? nm = df.getCol? nm) ∧
    (∀ (sq : ℚ → ℚ) (df : Frame) (sps eps : List Int) (rp ms ml sg bp : Int) (k : ℚ)
      (ap : Int) (r : Frame), df.wf →
      addAllIndicators sq df sps eps rp ms ml sg bp k ap = Except.ok r →
      r.wf ∧ r.height = df.height ∧
      ∀ nm, nm ∉ addAllNames sps eps rp ms ml sg bp ap →
        r.getCol? nm = df.getCol? nm) := by
  refine ⟨addSma_preserves, addEma_preserves, addRsi_preserves, addMacd_preserves,
    addBollinger_preserves, addAtr_preserves, addVwap_preserves, ?_⟩
  intro sq df sps eps rp ms ml sg bp k ap r hwf h
  unfold addAllIndicators at h
  obtain ⟨d1, h1, h⟩ := exBind_ok_inv _ _ _ h
  obtain ⟨d2, h2, h⟩ := exBind_ok_inv _ _ _ h
  obtain ⟨d3, h3, h⟩ := exBind_ok_inv _ _ _ h
  obtain ⟨d4, h4, h⟩ := exBind_ok_inv _ _ _ h
  obtain ⟨d5, h5, h⟩ := exBind_ok_inv _ _ _ h
  obtain ⟨d6, h6, h⟩ := exBind_ok_inv _ _ _ h
  obtain ⟨w1, e1, g1⟩ := foldlM_addSma_preserves sps df d1 hwf h1
  obtain ⟨w2, e2, g2⟩ := foldlM_addEma_preserves eps d1 d2 w1 h2
  obtain ⟨w3, e3, g3⟩ := addRsi_preserves d2 d3 rp w2 h3
  obtain ⟨w4, e4, g4⟩ := addMacd_preserves d3 d4 ms ml sg w3 h4
  obtain ⟨w5, e5, g5⟩ := addBollinger_preserves sq d4 d5 bp k w4 h5
  obtain ⟨w6, e6, g6⟩ := addAtr_preserves d5 d6 ap w5 h6
  obtain ⟨w7, e7, g7⟩ := addVwap_preserves d6 r w6 h
  refine ⟨w7, by rw [e7, e6, e5, e4, e3, e2, e1], ?_⟩
  intro nm hnm
  have hmem : ∀ x, x ∈ addAllNames sps eps rp ms ml sg bp ap → nm ≠ x := by
    intro x hx he
    exact hnm (he ▸ hx)
  rw [g7 nm (hmem "vwap" (by simp [addAllNames]))]
  rw [g6 nm (hmem (atrName ap) (by simp [addAllNames]))]
  rw [g5 nm (hmem (bbMiddleName bp) (by simp [addAllNames]))
    (hmem (bbUpperName bp) (by simp [addAllNames]))
    (hmem (bbLowerName bp) (by simp [addAllNames]))
    (hmem (bbStdName bp) (by simp [addAllNames]))]
  rw [g4 nm (hmem (emaName ms) (by simp [addAllNames]))
    (hmem (emaName ml) (by simp [addAllNames]))
    (hmem (macdColName ms ml) (by simp [addAllNames]))
    (hmem (macdSignalName sg) (by simp [addAllNames]))
    (hmem "macd_histogram" (by simp [addAllNames]))]
  rw [g3 nm (hmem (rsiName rp) (by simp [addAllNames]))]
  rw [g2 nm (fun p hp => hmem (emaName p) (by simp [addAllNames]; right; left; exact ⟨p, hp, rfl⟩))]
  rw [g1 nm (fun p hp => hmem (smaName p) (by simp [addAllNames]; left; exact ⟨p, hp, rfl⟩))]

/-- C9 witness: concrete instance of `c9_row_column_preservation` on the
OHLCV one-bar frame. -/
theorem c9_row_column_preservation_witness :
    ohlcvFrame1.wf ∧
    (ohlcvFrame1.withColumn (smaName 1) (rollingMean 1 (finCol [1]))).height =
      ohlcvFrame1.height ∧
    (ohlcvFrame1.withColumn (smaName 1) (rollingMean 1 (finCol [1]))).getCol? "open" =
      ohlcvFrame1.getCol? "open" := by
  have hwf : ohlcvFrame1.wf := ⟨by decide, by decide⟩
  have h := c9_row_column_preservation.1 ohlcvFrame1
    (ohlcvFrame1.withColumn (smaName 1) (rollingMean 1 (finCol [1]))) 1 hwf rfl
  exact ⟨hwf, h.2.1, h.2.2 "open" (by decide)⟩

end CryptoPipeline
